import Mathlib

/-!
Verification of the `nix-parser` crate of `nix-language-server`.

We shallowly embed the parser core: the `codespan` spans, the lexer's token
model (`src/nix-parser/src/lexer/tokens.rs`), the partial-result layer
(`src/nix-parser/src/parser/partial.rs`), the AST with its span-insensitive
equality and its `Display` round-trip printer
(`src/nix-parser/src/ast.rs`), and the expression grammar
(`src/nix-parser/src/parser/expr.rs`).  Parsers are modelled as functions
from a token list to a result that mirrors `nom`'s
`Ok / Err::Error / Err::Failure` trichotomy, extended with a `noFuel`
outcome for the fuel-indexed loops and a `panicked` outcome marking the
panicking branches of the Rust code (out-of-bounds slice indexing in
`Tokens::current`, and `Vec::pop().unwrap()` in the `update`/`concat`
levels), so that reachability of a panic is expressible.

Modules of the crate that are referenced but absent from the source tree
(the token-level parsers `parser/tokens.rs`, the leaf modules
`parser/expr/{atomic,attr,func,stmt,util}.rs`, the AST leaf types
`ast/tokens.rs`, the diagnostic stack `error/mod.rs`, and the lexer proper)
are modelled from the specification; each such definition says so in its
doc comment.
-/

namespace Nix

/-- A `codespan` byte span, half-open `[start, stop)`
(`src/nix-parser` uses `codespan::Span` everywhere). -/
structure Span where
  start : Nat
  stop : Nat
deriving DecidableEq, Repr

/-- `Span::merge`: the smallest span enclosing both. -/
def Span.merge (a b : Span) : Span :=
  ⟨min a.start b.start, max a.stop b.stop⟩

/-- `Span::default()`. -/
def Span.default : Span := ⟨0, 0⟩

/-- Modelled from the spec: the crate's `error` module (`Errors`, the
`Error` sum of diagnostic kinds) is not in the source tree; §6.2 says a
diagnostic carries a primary span and a message.  `unexpected` mirrors
`UnexpectedError` from `src/nix-parser/src/error/unexpected.rs` (which is
in the tree); `expectedTerm` stands for the "unclosed delimiter /
expected terminator" diagnostics appended by `expect_terminated`. -/
inductive Err where
  | unexpected (token : String) (span : Span)
  | expectedTerm (token : String) (span : Span)
deriving DecidableEq, Repr

/-- The primary span of a diagnostic (§6.2). -/
def Err.span : Err → Span
  | .unexpected _ s => s
  | .expectedTerm _ s => s

/-- Modelled from the spec: `Errors` is an ordered stack of diagnostics
(§3.5); `extend` appends at the end. -/
abbrev Errors := List Err

/-- `CommentKind` from `src/nix-parser/src/lexer/tokens.rs`. -/
inductive CommentKind where
  | line
  | block
deriving DecidableEq, Repr

mutual
/-- The token model, from `src/nix-parser/src/lexer/tokens.rs`.  Keyword
constructors are prefixed with `kw` and `Token::At` is `atSign` where the
Rust name is a Lean keyword; payload text is `String` for `Cow<str>`.
The `Unknown` error payload is an `Err`. -/
inductive Token where
  | eof (span : Span)
  | unknown (text : String) (span : Span) (error : Err)
  | comment (text : String) (kind : CommentKind) (span : Span)
  | identifier (text : String) (span : Span)
  | null (span : Span)
  | boolean (b : Bool) (span : Span)
  | float (text : String) (span : Span)
  | integer (text : String) (span : Span)
  | interpolation (tokens : List Token) (span : Span)
  | path (text : String) (span : Span)
  | pathTemplate (text : String) (span : Span)
  | string (fragments : List TokStrFragment) (span : Span)
  | uri (text : String) (span : Span)
  | add (span : Span)
  | sub (span : Span)
  | mul (span : Span)
  | div (span : Span)
  | isEq (span : Span)
  | notEq (span : Span)
  | lessThan (span : Span)
  | lessThanEq (span : Span)
  | greaterThan (span : Span)
  | greaterThanEq (span : Span)
  | logicalAnd (span : Span)
  | logicalOr (span : Span)
  | concat (span : Span)
  | update (span : Span)
  | question (span : Span)
  | imply (span : Span)
  | not (span : Span)
  | kwAssert (span : Span)
  | kwElse (span : Span)
  | kwIf (span : Span)
  | kwIn (span : Span)
  | kwInherit (span : Span)
  | kwLet (span : Span)
  | kwOr (span : Span)
  | kwRec (span : Span)
  | kwThen (span : Span)
  | kwWith (span : Span)
  | atSign (span : Span)
  | colon (span : Span)
  | comma (span : Span)
  | dot (span : Span)
  | ellipsis (span : Span)
  | eq (span : Span)
  | interpolate (span : Span)
  | lBrace (span : Span)
  | rBrace (span : Span)
  | lBracket (span : Span)
  | rBracket (span : Span)
  | lParen (span : Span)
  | rParen (span : Span)
  | quoteDouble (span : Span)
  | quoteSingle (span : Span)
  | semi (span : Span)

/-- A lexed string fragment, `StringFragment` from
`src/nix-parser/src/lexer/tokens.rs`. -/
inductive TokStrFragment where
  | literal (text : String) (span : Span)
  | interpolation (tokens : List Token) (span : Span)
end

/-- `impl ToSpan for Token` from `src/nix-parser/src/lexer/tokens.rs`. -/
def Token.toSpan : Token → Span
  | .eof s => s
  | .unknown _ s _ => s
  | .comment _ _ s => s
  | .identifier _ s => s
  | .null s => s
  | .boolean _ s => s
  | .float _ s => s
  | .integer _ s => s
  | .interpolation _ s => s
  | .path _ s => s
  | .pathTemplate _ s => s
  | .string _ s => s
  | .uri _ s => s
  | .add s => s
  | .sub s => s
  | .mul s => s
  | .div s => s
  | .isEq s => s
  | .notEq s => s
  | .lessThan s => s
  | .lessThanEq s => s
  | .greaterThan s => s
  | .greaterThanEq s => s
  | .logicalAnd s => s
  | .logicalOr s => s
  | .concat s => s
  | .update s => s
  | .question s => s
  | .imply s => s
  | .not s => s
  | .kwAssert s => s
  | .kwElse s => s
  | .kwIf s => s
  | .kwIn s => s
  | .kwInherit s => s
  | .kwLet s => s
  | .kwOr s => s
  | .kwRec s => s
  | .kwThen s => s
  | .kwWith s => s
  | .atSign s => s
  | .colon s => s
  | .comma s => s
  | .dot s => s
  | .ellipsis s => s
  | .eq s => s
  | .interpolate s => s
  | .lBrace s => s
  | .rBrace s => s
  | .lBracket s => s
  | .rBracket s => s
  | .lParen s => s
  | .rParen s => s
  | .quoteDouble s => s
  | .quoteSingle s => s
  | .semi s => s

/-- `Token::description` from `src/nix-parser/src/lexer/tokens.rs`
(used by the `error` fallback parser to word diagnostics). -/
def Token.description : Token → String
  | .eof _ => "<eof>"
  | .unknown text _ _ => "`" ++ text ++ "`"
  | .comment _ _ _ => "comment"
  | .identifier ident _ => "identifier `" ++ ident ++ "`"
  | .null _ => "null literal"
  | .boolean _ _ => "boolean"
  | .float _ _ => "float literal"
  | .integer _ _ => "integer literal"
  | .interpolation _ _ => "interpolation"
  | .path _ _ => "path literal"
  | .pathTemplate _ _ => "path template"
  | .string _ _ => "string"
  | .uri _ _ => "URI"
  | .add _ => "operator `+`"
  | .sub _ => "operator `-`"
  | .mul _ => "operator `*`"
  | .div _ => "operator `/`"
  | .isEq _ => "operator `==`"
  | .notEq _ => "operator `!=`"
  | .lessThan _ => "operator `<`"
  | .lessThanEq _ => "operator `<=`"
  | .greaterThan _ => "operator `>`"
  | .greaterThanEq _ => "operator `>`"
  | .logicalAnd _ => "operator `&&`"
  | .logicalOr _ => "operator `||`"
  | .concat _ => "operator `++`"
  | .update _ => "operator `//`"
  | .question _ => "operator `?`"
  | .imply _ => "operator `->`"
  | .not _ => "unary operator `!`"
  | .kwAssert _ => "keyword `assert`"
  | .kwElse _ => "keyword `else`"
  | .kwIf _ => "keyword `if`"
  | .kwIn _ => "keyword `in`"
  | .kwInherit _ => "keyword `inherit`"
  | .kwLet _ => "keyword `let`"
  | .kwOr _ => "keyword `or`"
  | .kwRec _ => "keyword `rec`"
  | .kwThen _ => "keyword `then`"
  | .kwWith _ => "keyword `with`"
  | .atSign _ => "at symbol (`@`)"
  | .colon _ => "colon"
  | .comma _ => "comma"
  | .dot _ => "dot separator"
  | .ellipsis _ => "ellipsis (`...`)"
  | .eq _ => "equals sign"
  | .interpolate _ => "interpolation sign (`$\x7b`)"
  | .lBrace _ => "left brace"
  | .rBrace _ => "right brace"
  | .lBracket _ => "left bracket"
  | .rBracket _ => "right bracket"
  | .lParen _ => "left parentheses"
  | .rParen _ => "right parentheses"
  | .quoteDouble _ => "double quote"
  | .quoteSingle _ => "multiline string open (`''`)"
  | .semi _ => "semicolon"

/-- `impl ToSpan for Tokens` from `src/nix-parser/src/lexer/tokens.rs`:
first token's start to last token's end, defaulting to 0. -/
def tokensSpan (ts : List Token) : Span :=
  ⟨(ts.head?.map (fun t => t.toSpan.start)).getD 0,
   (ts.getLast?.map (fun t => t.toSpan.stop)).getD 0⟩

/-- The partial-result type `Partial<T>` from
`src/nix-parser/src/parser/partial.rs`: an optional value plus an ordered
stack of diagnostics. -/
structure Partial (α : Type) where
  value : Option α
  errors : Errors
deriving DecidableEq, Repr

namespace Partial

/-- `Partial::new`. -/
def new (value : Option α) : Partial α := ⟨value, []⟩

/-- `Partial::with_errors`. -/
def withErrors (value : Option α) (errors : Errors) : Partial α := ⟨value, errors⟩

/-- `Partial::has_errors`. -/
def hasErrors (p : Partial α) : Bool := !p.errors.isEmpty

/-- `Partial::errors` (returns the stack only when it is non-empty). -/
def errorsOpt (p : Partial α) : Option Errors :=
  if p.hasErrors then some p.errors else none

/-- `Partial::extend_errors`: append to the error stack. -/
def extendErrors (p : Partial α) (error : Errors) : Partial α :=
  ⟨p.value, p.errors ++ error⟩

/-- `Partial::map`: applied regardless of errors. -/
def map (p : Partial α) (f : α → β) : Partial β :=
  ⟨p.value.map f, p.errors⟩

/-- `Partial::flat_map`: `f` is called only when a value is present; the
errors produced by `f` are appended to those already inside. -/
def flatMap (p : Partial α) (f : α → Partial β) : Partial β :=
  match p.value with
  | some value =>
    let q := f value
    ⟨q.value, p.errors ++ q.errors⟩
  | none => ⟨none, p.errors⟩

/-- `Partial::verify`: yield the value iff it is present and the error
stack is empty; otherwise return the accumulated errors. -/
def verify (p : Partial α) : Except Errors α :=
  match p.value with
  | some value => if p.hasErrors then .error p.errors else .ok value
  | none => .error p.errors

/-- The loop body of `impl FromIterator<Partial<T>> for Partial<Vec<T>>`
from `src/nix-parser/src/parser/partial.rs`: walk the iterator, pushing
each present value and extending the error stack with each non-empty
error stack. -/
def collectAux : List (Partial α) → List α → Errors → List α × Errors
  | [], values, errs => (values, errs)
  | p :: rest, values, errs =>
    let errs := match p.errorsOpt with
      | some e => errs ++ e
      | none => errs
    let values := match p.value with
      | some v => values ++ [v]
      | none => values
    collectAux rest values errs

/-- `FromIterator<Partial<T>> for Partial<Vec<T>>`: the value is always
`Some` of the collected vector. -/
def collect (l : List (Partial α)) : Partial (List α) :=
  let (values, errs) := collectAux l [] []
  ⟨some values, errs⟩

end Partial

/-- The result of running a parser, mirroring `nom::IResult` over the
token cursor: `ok` is `Ok((remaining, value))`, `errE` is
`Err(nom::Err::Error)` (recoverable), `errF` is `Err(nom::Err::Failure)`
(a `cut`).  `noFuel` marks exhaustion of the fuel that makes the Rust
loops structurally recursive (the Rust code would diverge), and
`panicked` marks that a panicking branch of the Rust code was reached
(`Tokens::current` on an empty slice, `Vec::pop().unwrap()` on an empty
vector). -/
inductive PRes (α : Type) where
  | ok (rest : List Token) (val : α)
  | errE (e : Errors)
  | errF (e : Errors)
  | noFuel
  | panicked

/-- A parser over the token cursor (`Fn(Tokens) -> IResult<_>`). -/
abbrev Parser (α : Type) : Type := List Token → PRes α

/-- `nom::combinator::map`. -/
def pMap (p : Parser α) (f : α → β) : Parser β := fun input =>
  match p input with
  | .ok rest v => .ok rest (f v)
  | .errE e => .errE e
  | .errF e => .errF e
  | .noFuel => .noFuel
  | .panicked => .panicked

/-- `nom::sequence::preceded`. -/
def pPreceded (p : Parser α) (q : Parser β) : Parser β := fun input =>
  match p input with
  | .ok rest _ => q rest
  | .errE e => .errE e
  | .errF e => .errF e
  | .noFuel => .noFuel
  | .panicked => .panicked

/-- `nom::sequence::terminated`. -/
def pTerminated (p : Parser α) (q : Parser β) : Parser α := fun input =>
  match p input with
  | .ok rest v =>
    (match q rest with
     | .ok rest2 _ => .ok rest2 v
     | .errE e => .errE e
     | .errF e => .errF e
     | .noFuel => .noFuel
     | .panicked => .panicked)
  | .errE e => .errE e
  | .errF e => .errF e
  | .noFuel => .noFuel
  | .panicked => .panicked

/-- `nom::sequence::pair`. -/
def pPair (p : Parser α) (q : Parser β) : Parser (α × β) := fun input =>
  match p input with
  | .ok rest v =>
    (match q rest with
     | .ok rest2 w => .ok rest2 (v, w)
     | .errE e => .errE e
     | .errF e => .errF e
     | .noFuel => .noFuel
     | .panicked => .panicked)
  | .errE e => .errE e
  | .errF e => .errF e
  | .noFuel => .noFuel
  | .panicked => .panicked

/-- `nom::combinator::opt`: recoverable failure becomes `none` without
consuming; a `Failure` still propagates. -/
def pOpt (p : Parser α) : Parser (Option α) := fun input =>
  match p input with
  | .ok rest v => .ok rest (some v)
  | .errE _ => .ok input none
  | .errF e => .errF e
  | .noFuel => .noFuel
  | .panicked => .panicked

/-- `nom::branch::alt` on two branches: recoverable failure of the first
tries the second (whose error is the one reported); a `Failure`
propagates immediately. -/
def pAlt (p q : Parser α) : Parser α := fun input =>
  match p input with
  | .ok rest v => .ok rest v
  | .errE _ => q input
  | .errF e => .errF e
  | .noFuel => .noFuel
  | .panicked => .panicked

/-- `nom::multi::many0`, structured by recursion on the shrinking input:
`nom` stops at the first recoverable failure and rejects an iteration
that consumed nothing (its infinite-loop guard, modelled by the length
comparison; every parser here returns a suffix of its input). -/
def many0Aux (p : Parser α) : Nat → List Token → PRes (List α)
  | 0, _ => .noFuel
  | fuel + 1, input =>
    match p input with
    | .errE _ => .ok input []
    | .errF e => .errF e
    | .noFuel => .noFuel
    | .panicked => .panicked
    | .ok rest v =>
      if rest.length = input.length then .errE []
      else
        match many0Aux p fuel rest with
        | .ok rest2 vs => .ok rest2 (v :: vs)
        | .errE e => .errE e
        | .errF e => .errF e
        | .noFuel => .noFuel
        | .panicked => .panicked

/-- `many0(p)`: the fuel `input.length + 1` can never run out because
every iteration strictly shrinks the input. -/
def pMany0 (p : Parser α) : Parser (List α) := fun input =>
  many0Aux p (input.length + 1) input

/-- Skip leading `Comment` tokens.  Modelled from the spec: the
token-level parsers live in the absent `parser/tokens.rs`; §8 requires
that inserting line comments between any two tokens does not change the
parsed AST, so each token-level parser skips leading comment tokens. -/
def skipComments : List Token → List Token
  | .comment _ _ _ :: rest => skipComments rest
  | ts => ts

/-- Modelled from the spec: `tokens::eof` of the absent
`parser/tokens.rs`.  It peeks at the current token (`Tokens::current`,
which panics on an empty cursor) and succeeds, without consuming,
exactly when it is `Eof`. -/
def eofP : Parser Span := fun input =>
  match skipComments input with
  | .eof s :: _ => .ok input s
  | t :: _ => .errE [.unexpected t.description t.toSpan]
  | [] => .panicked

/-- `nom::bytes::complete::take(1)` over the token cursor: yields the
taken one-token slice, or a recoverable error when no token is left
(`Tokens::slice_index` reports insufficient input). -/
def take1 : Parser (List Token) := fun input =>
  match input with
  | [] => .errE []
  | t :: rest => .ok rest [t]

/-- `expect_terminated(f, term)` from
`src/nix-parser/src/parser/partial.rs`: run `terminated(f, term)`; if
that fails recoverably, re-run `f` alone and append the terminator's
error to the partial. -/
def expectTerminated (f : Parser (Partial α)) (term : Parser β) : Parser (Partial α) :=
  fun input =>
  match pTerminated f term input with
  | .ok remaining part => .ok remaining part
  | .errE err =>
    (match f input with
     | .ok remaining part => .ok remaining (part.extendErrors err)
     | .errE e => .errE e
     | .errF e => .errF e
     | .noFuel => .noFuel
     | .panicked => .panicked)
  | .errF e => .errF e
  | .noFuel => .noFuel
  | .panicked => .panicked

/-- `map_partial(p, f)` from `src/nix-parser/src/parser/partial.rs`. -/
def mapPartialC (p : Parser (Partial α)) (f : α → β) : Parser (Partial β) :=
  pMap p (fun part => part.map f)

/-- `map_partial_spanned(p, f)` from
`src/nix-parser/src/parser/partial.rs`: the span handed to `f` runs from
the start of the input to the start of the remainder (or is the whole
input's span when the remainder is empty). -/
def mapPartialSpanned (p : Parser (Partial α)) (f : Span → α → β) :
    Parser (Partial β) := fun input =>
  match p input with
  | .ok remainder part =>
    let span :=
      if 0 < remainder.length then
        ⟨(tokensSpan input).start, (tokensSpan remainder).start⟩
      else tokensSpan input
    .ok remainder (part.map (f span))
  | .errE e => .errE e
  | .errF e => .errF e
  | .noFuel => .noFuel
  | .panicked => .panicked

/-- The loop of `many_till_partial(f, g)` from
`src/nix-parser/src/parser/partial.rs`, with its two pieces of loop
state (`partials`, `errors`) explicit and a fuel argument standing for
the unbounded Rust `loop`.  Note the two exits: when `g` matches, the
collected partial is extended with the skip errors; when `f` fails at
end-of-input, the collected partial is returned *without* them. -/
def manyTillAux (f : Parser (Partial α)) (g : Parser β) :
    Nat → List (Partial α) → Errors → List Token → PRes (Partial (List α))
  | 0, _, _, _ => .noFuel
  | fuel + 1, partials, errors, input =>
    match g input with
    | .ok _ _ => .ok input ((Partial.collect partials).extendErrors errors)
    | .errE _ | .errF _ =>
      (match f input with
       | .errE err | .errF err =>
         (match eofP input with
          | .ok _ _ => .ok input (Partial.collect partials)
          | .panicked => .panicked
          | _ =>
            match take1 input with
            | .ok remainder _ =>
              manyTillAux f g fuel partials (errors ++ err) remainder
            | _ => manyTillAux f g fuel partials errors input)
       | .noFuel => .noFuel
       | .panicked => .panicked
       | .ok remainder elem =>
         manyTillAux f g fuel (partials ++ [elem]) errors remainder)
    | .noFuel => .noFuel
    | .panicked => .panicked

/-- `many_till_partial(f, g)`. -/
def manyTillPartialC (f : Parser (Partial α)) (g : Parser β) (fuel : Nat) :
    Parser (Partial (List α)) := fun input =>
  manyTillAux f g fuel [] [] input

/-- The loop of `separated_list_partial(sep, term, f)` from
`src/nix-parser/src/parser/partial.rs` (after the first element), with
the same state and exits as `manyTillAux` but stepping with
`preceded(sep, f)`. -/
def sepListAux (sep : Parser β) (f : Parser (Partial α)) (term : Parser γ) :
    Nat → List (Partial α) → Errors → List Token → PRes (Partial (List α))
  | 0, _, _, _ => .noFuel
  | fuel + 1, partials, errors, input =>
    match term input with
    | .ok _ _ => .ok input ((Partial.collect partials).extendErrors errors)
    | .errE _ | .errF _ =>
      (match pPreceded sep f input with
       | .errE err | .errF err =>
         (match eofP input with
          | .ok _ _ => .ok input (Partial.collect partials)
          | .panicked => .panicked
          | _ =>
            match take1 input with
            | .ok remainder _ =>
              sepListAux sep f term fuel partials (errors ++ err) remainder
            | _ => sepListAux sep f term fuel partials errors input)
       | .noFuel => .noFuel
       | .panicked => .panicked
       | .ok remainder elem =>
         sepListAux sep f term fuel (partials ++ [elem]) errors remainder)
    | .noFuel => .noFuel
    | .panicked => .panicked

/-- `separated_list_partial(sep, term, f)`: a first recoverable failure
of `f` yields an empty collected list; a first `Failure` is demoted to a
recoverable error. -/
def separatedListPartialC (sep : Parser β) (term : Parser γ)
    (f : Parser (Partial α)) (fuel : Nat) : Parser (Partial (List α)) :=
  fun input =>
  match f input with
  | .errE _ => .ok input (Partial.collect [])
  | .errF err => .errE err
  | .noFuel => .noFuel
  | .panicked => .panicked
  | .ok remaining part => sepListAux sep f term fuel [part] [] remaining

/-- `pair_partial(first, second)` from
`src/nix-parser/src/parser/partial.rs`: run both, then
`f.flat_map(|f| g.map(|g| (f, g)))`. -/
def pairPartialC (first : Parser (Partial α)) (second : Parser (Partial β)) :
    Parser (Partial (α × β)) := fun input =>
  match first input with
  | .ok input1 f =>
    (match second input1 with
     | .ok remaining g =>
       .ok remaining (f.flatMap (fun fv => g.map (fun gv => (fv, gv))))
     | .errE e => .errE e
     | .errF e => .errF e
     | .noFuel => .noFuel
     | .panicked => .panicked)
  | .errE e => .errE e
  | .errF e => .errF e
  | .noFuel => .noFuel
  | .panicked => .panicked

/-- `verify_full(f)` from `src/nix-parser/src/parser/partial.rs`:
`Partial::verify` lifted to a hard (recoverable) parser error. -/
def verifyFullC (f : Parser (Partial α)) : Parser α := fun input =>
  match f input with
  | .ok rest part =>
    (match part.verify with
     | .ok v => .ok rest v
     | .error e => .errE e)
  | .errE e => .errE e
  | .errF e => .errF e
  | .noFuel => .noFuel
  | .panicked => .panicked

/-- Modelled from the spec: the AST leaf types live in the absent
`ast/tokens.rs`.  An identifier carries its text and span; its
`PartialEq` ignores the span (the test in
`src/nix-parser/src/parser/expr/bind.rs` compares parsed nodes against
nodes built with dummy spans). -/
structure Ident where
  name : String
  span : Span
deriving DecidableEq, Repr

/-- Modelled from the spec: `Comment` from the absent `ast/tokens.rs`;
its `PartialEq` compares the text only. -/
structure Comment where
  text : String
  span : Span
deriving DecidableEq, Repr

/-- Modelled from the spec: `Literal` from the absent `ast/tokens.rs`,
covering the literal kinds of §3.2; numeric literals keep their source
text. -/
inductive Literal where
  | null (span : Span)
  | boolean (b : Bool) (span : Span)
  | float (text : String) (span : Span)
  | integer (text : String) (span : Span)
  | path (text : String) (span : Span)
  | pathTemplate (text : String) (span : Span)
  | uri (text : String) (span : Span)
deriving DecidableEq, Repr

/-- The span of a literal. -/
def Literal.span : Literal → Span
  | .null s => s
  | .boolean _ s => s
  | .float _ s => s
  | .integer _ s => s
  | .path _ s => s
  | .pathTemplate _ s => s
  | .uri _ s => s

/-- `UnaryOp` from `src/nix-parser/src/ast.rs`. -/
inductive UnaryOp where
  | neg
  | not
deriving DecidableEq, Repr

/-- `BinaryOp` from `src/nix-parser/src/ast.rs`. -/
inductive BinaryOp where
  | add
  | sub
  | mul
  | div
  | eq
  | notEq
  | lessThan
  | lessThanEq
  | greaterThan
  | greaterThanEq
  | and
  | or
  | concat
  | update
  | hasAttr
  | impl
deriving DecidableEq, Repr

mutual
/-- The expression AST from `src/nix-parser/src/ast.rs`, with each
`Expr*` struct flattened into its constructor (fields in source order,
spans kept).  `Expr::Let` is `letSet`, `Expr::Rec` is `recSet` (the Rust
names collide with Lean keywords or the generated recursor). -/
inductive Expr where
  | paren (expr : Expr) (span : Span)
  | ident (id : Ident)
  | interpolation (inner : Expr) (span : Span)
  | literal (lit : Literal)
  | list (elems : List Expr) (span : Span)
  | string (fragments : List StrFragment) (span : Span)
  | set (binds : List Bind) (span : Span)
  | unary (op : UnaryOp) (expr : Expr) (span : Span)
  | binary (op : BinaryOp) (lhs : Expr) (rhs : Expr) (span : Span)
  | letSet (binds : List Bind) (span : Span)
  | recSet (binds : List Bind) (span : Span)
  | proj (base : Expr) (attr : AttrPath) (fallback : Option Expr) (span : Span)
  | ifE (cond : Expr) (body : Expr) (fallback : Expr) (span : Span)
  | orE (expr : Expr) (fallback : Expr) (span : Span)
  | assertE (cond : Expr) (expr : Expr) (span : Span)
  | withE (ctx : Expr) (expr : Expr) (span : Span)
  | letIn (binds : List Bind) (body : Expr) (span : Span)
  | fnDecl (decl : FnDecl)
  | fnApp (function : Expr) (argument : Expr) (span : Span)
  | error (span : Span)
  | trap (span : Span)

/-- `StringFragment` from `src/nix-parser/src/ast.rs` (the
`Interpolation` arm holds an `ExprInterpolation`, i.e. an inner
expression and its span). -/
inductive StrFragment where
  | literal (text : String) (span : Span)
  | interpolation (inner : Expr) (span : Span)

/-- `Bind` from `src/nix-parser/src/ast.rs`, each `Bind*` struct
flattened. -/
inductive Bind where
  | simple (comment : Option Comment) (attr : AttrPath) (expr : Expr) (span : Span)
  | inherit (names : List Ident) (span : Span)
  | inheritExpr (expr : Expr) (names : List Ident) (span : Span)

/-- `AttrPath` from `src/nix-parser/src/ast.rs`: segments plus the span
computed by `AttrPath::new`. -/
inductive AttrPath where
  | mk (segments : List AttrSegment) (span : Span)

/-- `AttrSegment` from `src/nix-parser/src/ast.rs` (the `String` arm
holds an `ExprString`: fragments and a span). -/
inductive AttrSegment where
  | ident (id : Ident)
  | interpolation (inner : Expr) (span : Span)
  | string (fragments : List StrFragment) (span : Span)

/-- `ExprFnDecl` from `src/nix-parser/src/ast.rs`, with `FnDeclSimple`
and `FnDeclFormals` flattened. -/
inductive FnDecl where
  | simple (name : Ident) (body : Expr) (span : Span)
  | formals (formals : List Formal) (ellipsis : Option Span)
      (extra : Option Ident) (body : Expr) (span : Span)

/-- `Formal` from `src/nix-parser/src/ast.rs`. -/
inductive Formal where
  | mk (name : Ident) (defaultVal : Option Expr) (span : Span)
end

/-- `AttrPath::new`: the span is the merge of the first and last
segment spans, or the default span when there are no segments. -/
def AttrSegment.span : AttrSegment → Span
  | .ident id => id.span
  | .interpolation _ s => s
  | .string _ s => s

/-- The stored span of an attribute path. -/
def AttrPath.span : AttrPath → Span
  | .mk _ s => s

/-- `AttrPath::new` from `src/nix-parser/src/ast.rs`. -/
def AttrPath.new (segments : List AttrSegment) : AttrPath :=
  let span :=
    match segments.head?, segments.getLast? with
    | some first, some last => Span.merge first.span last.span
    | _, _ => Span.default
  .mk segments span

/-- `impl HasSpan for Expr` (and the flattened structs) from
`src/nix-parser/src/ast.rs`: composite nodes return their stored span,
leaves their payload's span. -/
def Expr.span : Expr → Span
  | .paren _ s => s
  | .ident id => id.span
  | .interpolation _ s => s
  | .literal lit => lit.span
  | .list _ s => s
  | .string _ s => s
  | .set _ s => s
  | .unary _ _ s => s
  | .binary _ _ _ s => s
  | .letSet _ s => s
  | .recSet _ s => s
  | .proj _ _ _ s => s
  | .ifE _ _ _ s => s
  | .orE _ _ s => s
  | .assertE _ _ s => s
  | .withE _ _ s => s
  | .letIn _ _ s => s
  | .fnDecl (.simple _ _ s) => s
  | .fnDecl (.formals _ _ _ _ s) => s
  | .fnApp _ _ s => s
  | .error s => s
  | .trap s => s

/-- `impl PartialEq for Ident` — Modelled from the spec: span-insensitive
text comparison (see `Ident`). -/
def identEq (a b : Ident) : Bool := a.name == b.name

/-- `impl PartialEq for Comment` — Modelled from the spec:
span-insensitive text comparison. -/
def commentEq (a b : Comment) : Bool := a.text == b.text

/-- Derived `PartialEq` on `Option<Comment>` over `commentEq`. -/
def optCommentEq : Option Comment → Option Comment → Bool
  | none, none => true
  | some a, some b => commentEq a b
  | _, _ => false

/-- `impl PartialEq for Literal` — Modelled from the spec:
span-insensitive payload comparison. -/
def litEq : Literal → Literal → Bool
  | .null _, .null _ => true
  | .boolean a _, .boolean b _ => a == b
  | .float a _, .float b _ => a == b
  | .integer a _, .integer b _ => a == b
  | .path a _, .path b _ => a == b
  | .pathTemplate a _, .pathTemplate b _ => a == b
  | .uri a _, .uri b _ => a == b
  | _, _ => false

/-- Derived `PartialEq` on `Vec<Ident>`. -/
def identListEq : List Ident → List Ident → Bool
  | [], [] => true
  | a :: as_, b :: bs => identEq a b && identListEq as_ bs
  | _, _ => false

mutual
/-- The `PartialEq` implementations of `src/nix-parser/src/ast.rs`,
variant by variant: spans are ignored throughout except in the
span-payload variants `Error` and `Trap` (whose derived equality
compares the spans); `ExprProj::eq` ignores the fallback;
`FnDeclFormals::eq` compares the ellipsis fields with
`is_some() && is_some()` and ignores the `extra` binder — all exactly as
in the source. -/
def exprEq (x y : Expr) : Bool :=
  match x, y with
  | .paren a _, .paren b _ => exprEq a b
  | .ident a, .ident b => identEq a b
  | .interpolation a _, .interpolation b _ => exprEq a b
  | .literal a, .literal b => litEq a b
  | .list as_ _, .list bs _ => exprListEq as_ bs
  | .string as_ _, .string bs _ => fragListEq as_ bs
  | .set as_ _, .set bs _ => bindListEq as_ bs
  | .unary o1 a _, .unary o2 b _ => o1 == o2 && exprEq a b
  | .binary o1 l1 r1 _, .binary o2 l2 r2 _ =>
    o1 == o2 && exprEq l1 l2 && exprEq r1 r2
  | .letSet as_ _, .letSet bs _ => bindListEq as_ bs
  | .recSet as_ _, .recSet bs _ => bindListEq as_ bs
  | .proj b1 a1 _ _, .proj b2 a2 _ _ => exprEq b1 b2 && attrPathEq a1 a2
  | .ifE c1 b1 f1 _, .ifE c2 b2 f2 _ =>
    exprEq c1 c2 && exprEq b1 b2 && exprEq f1 f2
  | .orE e1 f1 _, .orE e2 f2 _ => exprEq e1 e2 && exprEq f1 f2
  | .assertE c1 e1 _, .assertE c2 e2 _ => exprEq c1 c2 && exprEq e1 e2
  | .withE w1 e1 _, .withE w2 e2 _ => exprEq w1 w2 && exprEq e1 e2
  | .letIn b1 e1 _, .letIn b2 e2 _ => bindListEq b1 b2 && exprEq e1 e2
  | .fnDecl d1, .fnDecl d2 => fnDeclEq d1 d2
  | .fnApp f1 a1 _, .fnApp f2 a2 _ => exprEq f1 f2 && exprEq a1 a2
  | .error s1, .error s2 => s1 == s2
  | .trap s1, .trap s2 => s1 == s2
  | _, _ => false
termination_by structural x

/-- Derived `Vec<Expr>` equality. -/
def exprListEq (xs ys : List Expr) : Bool :=
  match xs, ys with
  | [], [] => true
  | a :: as_, b :: bs => exprEq a b && exprListEq as_ bs
  | _, _ => false
termination_by structural xs

/-- `impl PartialEq for StringFragment`: literal text compared without
its span. -/
def fragEq (x y : StrFragment) : Bool :=
  match x, y with
  | .literal a _, .literal b _ => a == b
  | .interpolation a _, .interpolation b _ => exprEq a b
  | _, _ => false
termination_by structural x

/-- Derived `Vec<StringFragment>` equality. -/
def fragListEq (xs ys : List StrFragment) : Bool :=
  match xs, ys with
  | [], [] => true
  | a :: as_, b :: bs => fragEq a b && fragListEq as_ bs
  | _, _ => false
termination_by structural xs

/-- `impl PartialEq for Bind` and the three `Bind*` structs. -/
def bindEq (x y : Bind) : Bool :=
  match x, y with
  | .simple c1 a1 e1 _, .simple c2 a2 e2 _ =>
    attrPathEq a1 a2 && exprEq e1 e2 && optCommentEq c1 c2
  | .inherit n1 _, .inherit n2 _ => identListEq n1 n2
  | .inheritExpr e1 n1 _, .inheritExpr e2 n2 _ =>
    exprEq e1 e2 && identListEq n1 n2
  | _, _ => false
termination_by structural x

/-- Derived `Vec<Bind>` equality. -/
def bindListEq (xs ys : List Bind) : Bool :=
  match xs, ys with
  | [], [] => true
  | a :: as_, b :: bs => bindEq a b && bindListEq as_ bs
  | _, _ => false
termination_by structural xs

/-- `impl PartialEq for AttrPath`: segments only. -/
def attrPathEq (x y : AttrPath) : Bool :=
  match x, y with
  | .mk s1 _, .mk s2 _ => attrSegListEq s1 s2
termination_by structural x

/-- `impl PartialEq for AttrSegment`. -/
def attrSegEq (x y : AttrSegment) : Bool :=
  match x, y with
  | .ident a, .ident b => identEq a b
  | .interpolation a _, .interpolation b _ => exprEq a b
  | .string a _, .string b _ => fragListEq a b
  | _, _ => false
termination_by structural x

/-- Derived `Vec<AttrSegment>` equality. -/
def attrSegListEq (xs ys : List AttrSegment) : Bool :=
  match xs, ys with
  | [], [] => true
  | a :: as_, b :: bs => attrSegEq a b && attrSegListEq as_ bs
  | _, _ => false
termination_by structural xs

/-- `impl PartialEq for ExprFnDecl`, `FnDeclSimple` and `FnDeclFormals`
— the formals arm keeps the source's `is_some() && is_some()` ellipsis
comparison and ignores `extra`. -/
def fnDeclEq (x y : FnDecl) : Bool :=
  match x, y with
  | .simple n1 b1 _, .simple n2 b2 _ => identEq n1 n2 && exprEq b1 b2
  | .formals f1 e1 _ b1 _, .formals f2 e2 _ b2 _ =>
    formalListEq f1 f2 && (e1.isSome && e2.isSome) && exprEq b1 b2
  | _, _ => false
termination_by structural x

/-- `impl PartialEq for Formal`: name and default, no span. -/
def formalEq (x y : Formal) : Bool :=
  match x, y with
  | .mk n1 d1 _, .mk n2 d2 _ => identEq n1 n2 && optExprEq d1 d2
termination_by structural x

/-- Derived `Option<Box<Expr>>` equality. -/
def optExprEq (x y : Option Expr) : Bool :=
  match x, y with
  | none, none => true
  | some a, some b => exprEq a b
  | _, _ => false
termination_by structural x

/-- Derived `Vec<Formal>` equality. -/
def formalListEq (xs ys : List Formal) : Bool :=
  match xs, ys with
  | [], [] => true
  | a :: as_, b :: bs => formalEq a b && formalListEq as_ bs
  | _, _ => false
termination_by structural xs
end

/-- `impl Display for UnaryOp` from `src/nix-parser/src/ast.rs`. -/
def UnaryOp.toStr : UnaryOp → String
  | .neg => "-"
  | .not => "!"

/-- `impl Display for BinaryOp` from `src/nix-parser/src/ast.rs`. -/
def BinaryOp.toStr : BinaryOp → String
  | .add => "+"
  | .sub => "-"
  | .mul => "*"
  | .div => "/"
  | .eq => "=="
  | .notEq => "!="
  | .lessThan => "<"
  | .lessThanEq => "<="
  | .greaterThan => ">"
  | .greaterThanEq => ">="
  | .and => "&&"
  | .or => "||"
  | .concat => "++"
  | .update => "//"
  | .hasAttr => "?"
  | .impl => "->"

/-- Modelled from the spec: `Display for Literal` of the absent
`ast/tokens.rs` renders the literal's source text. -/
def litToStr : Literal → String
  | .null _ => "null"
  | .boolean b _ => if b then "true" else "false"
  | .float t _ => t
  | .integer t _ => t
  | .path t _ => t
  | .pathTemplate t _ => t
  | .uri t _ => t

/-- Modelled from the spec: `Display for Comment` of the absent
`ast/tokens.rs` renders the comment as a line comment. -/
def commentToStr (c : Comment) : String := "#" ++ c.text ++ "\n"

/-- `Vec::join`: `String.intercalate`. -/
def joinStr (sep : String) (l : List String) : String :=
  String.intercalate sep l

mutual
/-- The `Display` implementations of `src/nix-parser/src/ast.rs`
(`pretty_print`), arm by arm.  In particular `Display for FnDeclFormals`
writes `{{formals}}{@extra}:` — it does not write the body — and
`Display for ExprString` concatenates the raw fragment texts between
double quotes without re-escaping (the source carries a FIXME there);
both are kept exactly as in the source. -/
def exprToStr : Expr → String
  | .paren e _ => "(" ++ exprToStr e ++ ")"
  | .ident id => id.name
  | .interpolation inner _ => "$\x7b" ++ exprToStr inner ++ "\x7d"
  | .literal lit => litToStr lit
  | .list es _ => "[" ++ joinStr " " (exprListToStr es) ++ "]"
  | .string fs _ => "\"" ++ joinStr "" (fragListToStr fs) ++ "\""
  | .set bs _ => "\x7b" ++ joinStr " " (bindListToStr bs) ++ "\x7d"
  | .unary op e _ => op.toStr ++ exprToStr e
  | .binary op l r _ =>
    exprToStr l ++ " " ++ op.toStr ++ " " ++ exprToStr r
  | .letSet bs _ => "let \x7b" ++ joinStr " " (bindListToStr bs) ++ "\x7d"
  | .recSet bs _ => "rec \x7b" ++ joinStr " " (bindListToStr bs) ++ "\x7d"
  | .proj base attr fallback _ =>
    (match fallback with
     | some fb =>
       exprToStr base ++ "." ++ attrPathToStr attr ++ " or " ++ exprToStr fb
     | none => exprToStr base ++ "." ++ attrPathToStr attr)
  | .ifE c b f _ =>
    "if " ++ exprToStr c ++ " then " ++ exprToStr b ++ " else " ++ exprToStr f
  | .orE e f _ => exprToStr e ++ " or " ++ exprToStr f
  | .assertE c e _ => "assert " ++ exprToStr c ++ "; " ++ exprToStr e
  | .withE w e _ => "with " ++ exprToStr w ++ "; " ++ exprToStr e
  | .letIn bs body _ =>
    "let " ++ joinStr " " (bindListToStr bs) ++ " in " ++ exprToStr body
  | .fnDecl (.simple name body _) => name.name ++ ": " ++ exprToStr body
  | .fnDecl (.formals formals ellipsis extra _ _) =>
    let args := formalListToStr formals ++
      (match ellipsis with
       | some _ => ["..."]
       | none => [])
    let extraStr :=
      (match extra with
       | some id => "@" ++ id.name
       | none => "")
    "\x7b" ++ joinStr ", " args ++ "\x7d" ++ extraStr ++ ":"
  | .fnApp f a _ => exprToStr f ++ " " ++ exprToStr a
  | .error _ => "<error>"
  | .trap _ => "trap"

/-- `self.elems.iter().map(ToString::to_string)` on a `Vec<Expr>`. -/
def exprListToStr : List Expr → List String
  | [] => []
  | e :: rest => exprToStr e :: exprListToStr rest

/-- `impl Display for StringFragment`. -/
def fragToStr : StrFragment → String
  | .literal text _ => text
  | .interpolation inner _ => "$\x7b" ++ exprToStr inner ++ "\x7d"

/-- Fragment list rendering. -/
def fragListToStr : List StrFragment → List String
  | [] => []
  | f :: rest => fragToStr f :: fragListToStr rest

/-- `impl Display for Bind` and the three `Bind*` structs. -/
def bindToStr : Bind → String
  | .simple comment attr expr _ =>
    (match comment with
     | some c =>
       commentToStr c ++ attrPathToStr attr ++ " = " ++ exprToStr expr ++ ";"
     | none => attrPathToStr attr ++ " = " ++ exprToStr expr ++ ";")
  | .inherit names _ =>
    "inherit " ++ joinStr " " (names.map (fun id => id.name)) ++ ";"
  | .inheritExpr expr names _ =>
    "inherit (" ++ exprToStr expr ++ ") " ++
      joinStr " " (names.map (fun id => id.name)) ++ ";"

/-- Binding list rendering. -/
def bindListToStr : List Bind → List String
  | [] => []
  | b :: rest => bindToStr b :: bindListToStr rest

/-- `impl Display for AttrPath`: segments joined with `.`. -/
def attrPathToStr : AttrPath → String
  | .mk segments _ => joinStr "." (attrSegListToStr segments)

/-- `impl Display for AttrSegment`. -/
def attrSegToStr : AttrSegment → String
  | .ident id => id.name
  | .interpolation inner _ => "$\x7b" ++ exprToStr inner ++ "\x7d"
  | .string fs _ => "\"" ++ joinStr "" (fragListToStr fs) ++ "\""

/-- Segment list rendering. -/
def attrSegListToStr : List AttrSegment → List String
  | [] => []
  | s :: rest => attrSegToStr s :: attrSegListToStr rest

/-- `impl Display for Formal`: `name` or `name ? default`. -/
def formalToStr : Formal → String
  | .mk name defaultVal _ =>
    (match defaultVal with
     | some d => name.name ++ " ? " ++ exprToStr d
     | none => name.name)

/-- Formal list rendering. -/
def formalListToStr : List Formal → List String
  | [] => []
  | f :: rest => formalToStr f :: formalListToStr rest
end

/-- Modelled from the spec: the token-level parsers live in the absent
`parser/tokens.rs`.  A matcher reads the current token
(`Tokens::current`, which panics on an empty cursor — the `panicked`
branch), skips leading comments, consumes the token when `m` accepts it
and otherwise reports it as unexpected. -/
def tokenP (m : Token → Option α) : Parser α := fun input =>
  match skipComments input with
  | [] => .panicked
  | t :: rest =>
    match m t with
    | some v => .ok rest v
    | none => .errE [.unexpected t.description t.toSpan]

/-- Modelled from the spec: `tokens::comment` — reads one `Comment`
token (no comment skipping, it is the consumer of comments). -/
def commentP : Parser Comment := fun input =>
  match input with
  | [] => .panicked
  | .comment text _ s :: rest => .ok rest ⟨text, s⟩
  | t :: _ => .errE [.unexpected t.description t.toSpan]

/-- Modelled from the spec: `tokens::identifier`. -/
def identifierP : Parser Ident :=
  tokenP fun t => match t with
    | .identifier text s => some ⟨text, s⟩
    | _ => none

/-- Modelled from the spec: the operator and punctuation parsers of
`parser/tokens.rs`, each yielding the token's span. -/
def opAddP : Parser Span :=
  tokenP fun t => match t with
    | .add s => some s
    | _ => none

def opSubP : Parser Span :=
  tokenP fun t => match t with
    | .sub s => some s
    | _ => none

def opMulP : Parser Span :=
  tokenP fun t => match t with
    | .mul s => some s
    | _ => none

def opDivP : Parser Span :=
  tokenP fun t => match t with
    | .div s => some s
    | _ => none

def opIsEqP : Parser Span :=
  tokenP fun t => match t with
    | .isEq s => some s
    | _ => none

def opNotEqP : Parser Span :=
  tokenP fun t => match t with
    | .notEq s => some s
    | _ => none

def opLtP : Parser Span :=
  tokenP fun t => match t with
    | .lessThan s => some s
    | _ => none

def opLteP : Parser Span :=
  tokenP fun t => match t with
    | .lessThanEq s => some s
    | _ => none

def opGtP : Parser Span :=
  tokenP fun t => match t with
    | .greaterThan s => some s
    | _ => none

def opGteP : Parser Span :=
  tokenP fun t => match t with
    | .greaterThanEq s => some s
    | _ => none

def opAndP : Parser Span :=
  tokenP fun t => match t with
    | .logicalAnd s => some s
    | _ => none

def opOrP : Parser Span :=
  tokenP fun t => match t with
    | .logicalOr s => some s
    | _ => none

def opConcatP : Parser Span :=
  tokenP fun t => match t with
    | .concat s => some s
    | _ => none

def opUpdateP : Parser Span :=
  tokenP fun t => match t with
    | .update s => some s
    | _ => none

def opQuestionP : Parser Span :=
  tokenP fun t => match t with
    | .question s => some s
    | _ => none

def opImplyP : Parser Span :=
  tokenP fun t => match t with
    | .imply s => some s
    | _ => none

def opNotP : Parser Span :=
  tokenP fun t => match t with
    | .not s => some s
    | _ => none

def kwIfP : Parser Span :=
  tokenP fun t => match t with
    | .kwIf s => some s
    | _ => none

def kwThenP : Parser Span :=
  tokenP fun t => match t with
    | .kwThen s => some s
    | _ => none

def kwElseP : Parser Span :=
  tokenP fun t => match t with
    | .kwElse s => some s
    | _ => none

def kwLetP : Parser Span :=
  tokenP fun t => match t with
    | .kwLet s => some s
    | _ => none

def kwInP : Parser Span :=
  tokenP fun t => match t with
    | .kwIn s => some s
    | _ => none

def kwWithP : Parser Span :=
  tokenP fun t => match t with
    | .kwWith s => some s
    | _ => none

def kwAssertP : Parser Span :=
  tokenP fun t => match t with
    | .kwAssert s => some s
    | _ => none

def kwRecP : Parser Span :=
  tokenP fun t => match t with
    | .kwRec s => some s
    | _ => none

def kwInheritP : Parser Span :=
  tokenP fun t => match t with
    | .kwInherit s => some s
    | _ => none

def dotP : Parser Span :=
  tokenP fun t => match t with
    | .dot s => some s
    | _ => none

def semiP : Parser Span :=
  tokenP fun t => match t with
    | .semi s => some s
    | _ => none

def colonP : Parser Span :=
  tokenP fun t => match t with
    | .colon s => some s
    | _ => none

def commaP : Parser Span :=
  tokenP fun t => match t with
    | .comma s => some s
    | _ => none

def atP : Parser Span :=
  tokenP fun t => match t with
    | .atSign s => some s
    | _ => none

def ellipsisP : Parser Span :=
  tokenP fun t => match t with
    | .ellipsis s => some s
    | _ => none

def eqSignP : Parser Span :=
  tokenP fun t => match t with
    | .eq s => some s
    | _ => none

def lBraceP : Parser Span :=
  tokenP fun t => match t with
    | .lBrace s => some s
    | _ => none

def rBraceP : Parser Span :=
  tokenP fun t => match t with
    | .rBrace s => some s
    | _ => none

def lBracketP : Parser Span :=
  tokenP fun t => match t with
    | .lBracket s => some s
    | _ => none

def rBracketP : Parser Span :=
  tokenP fun t => match t with
    | .rBracket s => some s
    | _ => none

def lParenP : Parser Span :=
  tokenP fun t => match t with
    | .lParen s => some s
    | _ => none

def rParenP : Parser Span :=
  tokenP fun t => match t with
    | .rParen s => some s
    | _ => none

/-- `atomic::identifier` — Modelled from the spec (module absent): an
`Identifier` token as an atomic expression. -/
def atomicIdentP : Parser (Partial Expr) :=
  pMap identifierP (fun id => Partial.new (some (Expr.ident id)))

/-- `atomic::literal` — Modelled from the spec (module absent): the
literal tokens of §3.2 as atomic expressions. -/
def atomicLiteralP : Parser (Partial Expr) :=
  tokenP fun t => match t with
    | .null s => some (Partial.new (some (.literal (.null s))))
    | .boolean b s => some (Partial.new (some (.literal (.boolean b s))))
    | .float text s => some (Partial.new (some (.literal (.float text s))))
    | .integer text s => some (Partial.new (some (.literal (.integer text s))))
    | .path text s => some (Partial.new (some (.literal (.path text s))))
    | .pathTemplate text s => some (Partial.new (some (.literal (.pathTemplate text s))))
    | .uri text s => some (Partial.new (some (.literal (.uri text s))))
    | _ => none

/-- The `error` fallback parser from `src/nix-parser/src/parser/expr.rs`
(lines 242-255): take one token, record it as unexpected; at `Eof` fail
with that diagnostic, otherwise yield an `Expr::Error` placeholder
carrying it.  `tokens.current()` on the taken one-token slice is always
defined; the empty case is the panicking branch. -/
def errorP : Parser (Partial Expr) := fun input =>
  match take1 input with
  | .ok remaining tokens =>
    (match tokens with
     | [] => .panicked
     | t :: _ =>
       let errs : Errors := [.unexpected t.description (tokensSpan tokens)]
       (match t with
        | .eof _ => .errE errs
        | _ => .ok remaining ⟨some (.error (tokensSpan tokens)), errs⟩))
  | .errE e => .errE e
  | .errF e => .errF e
  | .noFuel => .noFuel
  | .panicked => .panicked

/-- `util::error_expr_if(p, found)` — Modelled from the spec (module
absent): peek `p`; when it matches, yield an `Expr::Error` placeholder
at its span with an "unexpected token" diagnostic naming `found`,
consuming nothing; otherwise fail recoverably. -/
def errorExprIf (p : Parser Span) (found : String) : Parser (Partial Expr) :=
  fun input =>
  match p input with
  | .ok _ s => .ok input ⟨some (.error s), [.unexpected found s]⟩
  | .errE e => .errE e
  | .errF e => .errF e
  | .noFuel => .noFuel
  | .panicked => .panicked

/-- The left fold shared by the `imply`/`and`/`or` levels of
`src/nix-parser/src/parser/expr.rs`: fold the tail onto the head with
`flat_map`/`map`, building `Binary(op, lhs, rhs)` with the merged span. -/
def foldBinL (op : BinaryOp) (first : Partial Expr)
    (rest : List (Partial Expr)) : Partial Expr :=
  rest.foldl
    (fun lhs rhs =>
      lhs.flatMap (fun l => rhs.map (fun r =>
        Expr.binary op l r (Span.merge l.span r.span))))
    first

/-- The left fold of the `sum`/`product` levels (operator paired with
each operand). -/
def foldBinOpsL (first : Partial Expr)
    (rest : List (BinaryOp × Partial Expr)) : Partial Expr :=
  rest.foldl
    (fun lhs x =>
      lhs.flatMap (fun l => x.2.map (fun r =>
        Expr.binary x.1 l r (Span.merge l.span r.span))))
    first

/-- The at-most-one combination of the `equality`/`compare` levels. -/
def foldBinOpt (lhs : Partial Expr) :
    Option (BinaryOp × Partial Expr) → Partial Expr
  | none => lhs
  | some (op, rhs) =>
    lhs.flatMap (fun l => rhs.map (fun r =>
      Expr.binary op l r (Span.merge l.span r.span)))

/-- The left fold of the `fn_app` level: juxtaposition. -/
def foldFnApp (first : Partial Expr) (rest : List (Partial Expr)) :
    Partial Expr :=
  rest.foldl
    (fun lhs rhs =>
      lhs.flatMap (fun l => rhs.map (fun r =>
        Expr.fnApp l r (Span.merge l.span r.span))))
    first

/-- The post-processing of the `update` and `concat` levels of
`src/nix-parser/src/parser/expr.rs` (lines 133-142 and 179-188): pop the
last parsed operand (`none` is the `pop().unwrap()` panic on an empty
vector), then fold the remaining operands, reversed, with the
accumulator as the LEFT operand:
`ExprBinary::new(op, lhs = acc, rhs = elem, Span::merge(rhs, lhs))`. -/
def revChainFold (op : BinaryOp) (es : List Expr) : Option Expr :=
  match es.getLast? with
  | none => none
  | some last =>
    some (es.dropLast.reverse.foldl
      (fun lhs rhs => Expr.binary op lhs rhs (Span.merge rhs.span lhs.span))
      last)

/-- Modelled from the spec: the bounded lookahead of §4.4 — scan forward
over a balanced brace region (`{`/`${` open, `}` closes) and return the
tokens after the matching close brace, or `none` when `Eof` or the end
of the stream is reached first. -/
def braceScan : Nat → Nat → List Token → Option (List Token)
  | 0, _, _ => none
  | _ + 1, _, [] => none
  | fuel + 1, depth, t :: rest =>
    match t with
    | .lBrace _ => braceScan fuel (depth + 1) rest
    | .interpolate _ => braceScan fuel (depth + 1) rest
    | .rBrace _ =>
      if depth = 0 then some rest else braceScan fuel (depth - 1) rest
    | .eof _ => none
    | _ => braceScan fuel depth rest

/-- Modelled from the spec: after the matching `}` a formals lambda
continues with `:` or `@ ident :` (§4.4). -/
def afterBraceLambda (rest : List Token) : Bool :=
  match braceScan (rest.length + 1) 0 rest with
  | none => false
  | some after =>
    match skipComments after with
    | .colon _ :: _ => true
    | .atSign _ :: a2 =>
      (match skipComments a2 with
       | .identifier _ _ :: a3 =>
         (match skipComments a3 with
          | .colon _ :: _ => true
          | _ => false)
       | _ => false)
    | _ => false

/-- Modelled from the spec: the committed set-vs-formals decision of
§4.4 — a `{` that scans to `}: …` or `}@ident: …`, or an
`ident @ {…}: …` prefix form, starts a formals lambda; on `Eof` during
the scan, fall back to set. -/
def formalsAhead (input : List Token) : Bool :=
  match skipComments input with
  | .lBrace _ :: rest => afterBraceLambda rest
  | .identifier _ _ :: ts =>
    (match skipComments ts with
     | .atSign _ :: ts2 =>
       (match skipComments ts2 with
        | .lBrace _ :: rest => afterBraceLambda rest
        | _ => false)
     | _ => false)
  | _ => false

/-- Monadic sequencing of parsers (the `?` operator of the Rust code). -/
def pBind (p : Parser α) (f : α → Parser β) : Parser β := fun input =>
  match p input with
  | .ok rest v => f v rest
  | .errE e => .errE e
  | .errF e => .errF e
  | .noFuel => .noFuel
  | .panicked => .panicked

/-- `nom::combinator::cut`: demote a recoverable error to a `Failure`. -/
def pCut (p : Parser α) : Parser α := fun input =>
  match p input with
  | .errE e => .errF e
  | r => r

/-- `nom::multi::many1`. -/
def pMany1 (p : Parser α) : Parser (List α) :=
  pMap (pPair p (pMany0 p)) (fun x => x.1 :: x.2)

/-- Modelled from the spec: the token-level analog of `inherit` from
`src/nix-parser/src/parser/expr/bind.rs` (the source file parses the
string input; the binding grammar is `inherit name+ ;`, the `;` a
`cut`, the leading comment discarded by `preceded`). -/
def bindInheritP : Parser (Partial Bind) := fun input =>
  pBind (pOpt commentP) (fun _ =>
    pBind kwInheritP (fun _ =>
      pBind (pMany1 identifierP) (fun names =>
        pMap (pCut semiP) (fun _ =>
          Partial.new (some (.inherit names (tokensSpan input))))))) input

mutual
/-- `expr` from `src/nix-parser/src/parser/expr.rs`: strip leading
comments, then the statement/function level.  Every parser takes a fuel
argument that each inter-parser call decrements; `noFuel` marks
exhaustion (the corresponding Rust recursion depth). -/
def exprP : Nat → Parser (Partial Expr)
  | 0 => fun _ => .noFuel
  | fuel + 1 => pPreceded (pMany0 commentP) (functionP fuel)

/-- `function` from `src/nix-parser/src/parser/expr.rs`:
`alt((fn_decl, with, assert, let_in, if_else))`. -/
def functionP : Nat → Parser (Partial Expr)
  | 0 => fun _ => .noFuel
  | fuel + 1 =>
    pAlt (fnDeclP fuel)
      (pAlt (withP fuel) (pAlt (assertP fuel) (pAlt (letInP fuel) (ifElseP fuel))))

/-- `func::fn_decl` — Modelled from the spec (module absent, §4.4): a
simple lambda `ident : body`, or a formals lambda guarded by the
committed brace-scan lookahead. -/
def fnDeclP : Nat → Parser (Partial Expr)
  | 0 => fun _ => .noFuel
  | fuel + 1 =>
    pAlt (fnDeclSimpleP fuel)
      (fun input =>
        if formalsAhead input then fnDeclFormalsP fuel input
        else
          match skipComments input with
          | [] => .panicked
          | t :: _ => .errE [.unexpected t.description t.toSpan])

/-- Modelled from the spec (§4.4): `ident : body`, the body at the top
expression level; the span merges the name and body spans. -/
def fnDeclSimpleP : Nat → Parser (Partial Expr)
  | 0 => fun _ => .noFuel
  | fuel + 1 =>
    pBind identifierP (fun id =>
      pBind colonP (fun _ =>
        pMap (exprP fuel) (fun bodyPart =>
          bodyPart.map (fun b =>
            Expr.fnDecl (.simple id b (Span.merge id.span b.span))))))

/-- Modelled from the spec (§4.4): a formals lambda
`{ a, b ? default, ... } @ name : body` with the `@` binder before or
after the braces. -/
def fnDeclFormalsP : Nat → Parser (Partial Expr)
  | 0 => fun _ => .noFuel
  | fuel + 1 =>
    mapPartialSpanned
      (pBind (pOpt (pTerminated identifierP atP)) (fun prefixBinder =>
        pBind lBraceP (fun _ =>
          pBind (formalsInnerP fuel) (fun inner =>
            pBind rBraceP (fun _ =>
              pBind
                (match prefixBinder with
                 | some _ => fun input => .ok input none
                 | none => pOpt (pPreceded atP identifierP))
                (fun suffixBinder =>
                  pBind colonP (fun _ =>
                    pMap (exprP fuel) (fun bodyPart =>
                      inner.flatMap (fun x =>
                        bodyPart.map (fun b =>
                          (x.1, x.2,
                           (match prefixBinder with
                            | some id => some id
                            | none => suffixBinder), b)))))))))))
      (fun span x =>
        Expr.fnDecl (.formals x.1 x.2.1 x.2.2.1 x.2.2.2 span))

/-- Modelled from the spec (§4.4): one formal, `name` or
`name ? default`. -/
def formalP : Nat → Parser (Partial Formal)
  | 0 => fun _ => .noFuel
  | fuel + 1 =>
    pBind identifierP (fun id =>
      pBind (pOpt (pPreceded opQuestionP (exprP fuel))) (fun dflt =>
        fun input =>
          match dflt with
          | none => .ok input (Partial.new (some (.mk id none id.span)))
          | some dp =>
            .ok input (dp.map (fun d =>
              Formal.mk id (some d) (Span.merge id.span d.span)))))

/-- Modelled from the spec (§4.4): the formals after any leading item,
`(, formal)*` with an optional final `, ...`. -/
def formalsTailP : Nat → List (Partial Formal) →
    Parser (Partial (List Formal × Option Span))
  | 0, _ => fun _ => .noFuel
  | fuel + 1, acc => fun input =>
    match commaP input with
    | .ok i1 _ =>
      (match ellipsisP i1 with
       | .ok i2 s => .ok i2 ((Partial.collect acc).map (fun fs => (fs, some s)))
       | .errE _ =>
         (match formalP fuel i1 with
          | .ok i2 fp => formalsTailP fuel (acc ++ [fp]) i2
          | .errE e => .errE e
          | .errF e => .errF e
          | .noFuel => .noFuel
          | .panicked => .panicked)
       | .errF e => .errF e
       | .noFuel => .noFuel
       | .panicked => .panicked)
    | .errE _ => .ok input ((Partial.collect acc).map (fun fs => (fs, none)))
    | .errF e => .errF e
    | .noFuel => .noFuel
    | .panicked => .panicked

/-- Modelled from the spec (§4.4): the inside of the formals braces —
empty, a leading `...`, or a first formal followed by the tail. -/
def formalsInnerP : Nat → Parser (Partial (List Formal × Option Span))
  | 0 => fun _ => .noFuel
  | fuel + 1 => fun input =>
    match ellipsisP input with
    | .ok i1 s => .ok i1 (Partial.new (some ([], some s)))
    | .errE _ =>
      (match formalP fuel input with
       | .ok i1 fp => formalsTailP fuel [fp] i1
       | .errE _ => .ok input (Partial.new (some ([], none)))
       | .errF e => .errF e
       | .noFuel => .noFuel
       | .panicked => .panicked)
    | .errF e => .errF e
    | .noFuel => .noFuel
    | .panicked => .panicked

/-- `stmt::with` — Modelled from the spec (module absent, §4.2):
`with e1; e2`, the body at the top level, the `;` expected via
`expect_terminated`. -/
def withP : Nat → Parser (Partial Expr)
  | 0 => fun _ => .noFuel
  | fuel + 1 =>
    mapPartialSpanned
      (pPreceded kwWithP
        (pairPartialC (expectTerminated (exprP fuel) semiP) (exprP fuel)))
      (fun span x => Expr.withE x.1 x.2 span)

/-- `stmt::assert` — Modelled from the spec (module absent, §4.2):
`assert e1; e2`. -/
def assertP : Nat → Parser (Partial Expr)
  | 0 => fun _ => .noFuel
  | fuel + 1 =>
    mapPartialSpanned
      (pPreceded kwAssertP
        (pairPartialC (expectTerminated (exprP fuel) semiP) (exprP fuel)))
      (fun span x => Expr.assertE x.1 x.2 span)

/-- `stmt::let_in` — Modelled from the spec (module absent, §4.2-4.3):
`let bind* in body`, the bindings recovered with `many_till_partial`
against the `in` keyword, the body at the top level. -/
def letInP : Nat → Parser (Partial Expr)
  | 0 => fun _ => .noFuel
  | fuel + 1 =>
    mapPartialSpanned
      (pPreceded kwLetP
        (pairPartialC (manyTillPartialC (bindP fuel) kwInP fuel)
          (pPreceded kwInP (exprP fuel))))
      (fun span x => Expr.letIn x.1 x.2 span)

/-- `if_else` from `src/nix-parser/src/parser/expr.rs` (lines 38-55),
combinator for combinator. -/
def ifElseP : Nat → Parser (Partial Expr)
  | 0 => fun _ => .noFuel
  | fuel + 1 =>
    let cond := pAlt (errorExprIf kwThenP "keyword `then`") (exprP fuel)
    let condThen := expectTerminated cond kwThenP
    let ifCondThen := pPreceded kwIfP condThen
    let body := pAlt (errorExprIf kwElseP "keyword `else`") (exprP fuel)
    let bodyElse := expectTerminated body kwElseP
    let exprA := pAlt (errorExprIf eofP "<eof>") (exprP fuel)
    let block := pairPartialC ifCondThen (pairPartialC bodyElse exprA)
    let ifelse := mapPartialSpanned block
      (fun span x => Expr.ifE x.1 x.2.1 x.2.2 span)
    pAlt ifelse (implyP fuel)

/-- `imply` from `src/nix-parser/src/parser/expr.rs` (lines 57-69). -/
def implyP : Nat → Parser (Partial Expr)
  | 0 => fun _ => .noFuel
  | fuel + 1 =>
    pMap (pPair (andP fuel) (pMany0 (pPreceded opImplyP (andP fuel))))
      (fun x => foldBinL .impl x.1 x.2)

/-- `and` from `src/nix-parser/src/parser/expr.rs` (lines 71-83). -/
def andP : Nat → Parser (Partial Expr)
  | 0 => fun _ => .noFuel
  | fuel + 1 =>
    pMap (pPair (orP fuel) (pMany0 (pPreceded opAndP (orP fuel))))
      (fun x => foldBinL .and x.1 x.2)

/-- `or` from `src/nix-parser/src/parser/expr.rs` (lines 85-97). -/
def orP : Nat → Parser (Partial Expr)
  | 0 => fun _ => .noFuel
  | fuel + 1 =>
    pMap (pPair (equalityP fuel) (pMany0 (pPreceded opOrP (equalityP fuel))))
      (fun x => foldBinL .or x.1 x.2)

/-- `equality` from `src/nix-parser/src/parser/expr.rs` (lines 99-112):
non-associative `==`/`!=`. -/
def equalityP : Nat → Parser (Partial Expr)
  | 0 => fun _ => .noFuel
  | fuel + 1 =>
    let eq := pMap opIsEqP (fun _ => BinaryOp.eq)
    let neq := pMap opNotEqP (fun _ => BinaryOp.notEq)
    pMap (pPair (compareP fuel) (pOpt (pPair (pAlt eq neq) (compareP fuel))))
      (fun x => foldBinOpt x.1 x.2)

/-- `compare` from `src/nix-parser/src/parser/expr.rs` (lines 114-129):
non-associative `<= < >= >` (in the source's `alt` order). -/
def compareP : Nat → Parser (Partial Expr)
  | 0 => fun _ => .noFuel
  | fuel + 1 =>
    let lte := pMap opLteP (fun _ => BinaryOp.lessThanEq)
    let lt := pMap opLtP (fun _ => BinaryOp.lessThan)
    let gte := pMap opGteP (fun _ => BinaryOp.greaterThanEq)
    let gt := pMap opGtP (fun _ => BinaryOp.greaterThan)
    let op := pAlt lte (pAlt lt (pAlt gte gt))
    pMap (pPair (updateP fuel) (pOpt (pPair op (updateP fuel))))
      (fun x => foldBinOpt x.1 x.2)

/-- `update` from `src/nix-parser/src/parser/expr.rs` (lines 131-143):
`sum (// sum)*` collected into a `Partial<Vec<_>>` and combined with
the pop-and-reverse fold `revChainFold`. -/
def updateP : Nat → Parser (Partial Expr)
  | 0 => fun _ => .noFuel
  | fuel + 1 => fun input =>
    match pPair (sumP fuel) (pMany0 (pPreceded opUpdateP (sumP fuel))) input with
    | .ok rest x =>
      let exprs := Partial.collect (x.1 :: x.2)
      (match exprs.value with
       | some es =>
         (match revChainFold .update es with
          | some e => .ok rest ⟨some e, exprs.errors⟩
          | none => .panicked)
       | none => .ok rest ⟨none, exprs.errors⟩)
    | .errE e => .errE e
    | .errF e => .errF e
    | .noFuel => .noFuel
    | .panicked => .panicked

/-- `sum` from `src/nix-parser/src/parser/expr.rs` (lines 145-159). -/
def sumP : Nat → Parser (Partial Expr)
  | 0 => fun _ => .noFuel
  | fuel + 1 =>
    let add := pMap opAddP (fun _ => BinaryOp.add)
    let sub := pMap opSubP (fun _ => BinaryOp.sub)
    pMap (pPair (productP fuel) (pMany0 (pPair (pAlt add sub) (productP fuel))))
      (fun x => foldBinOpsL x.1 x.2)

/-- `product` from `src/nix-parser/src/parser/expr.rs` (lines 161-175). -/
def productP : Nat → Parser (Partial Expr)
  | 0 => fun _ => .noFuel
  | fuel + 1 =>
    let mul := pMap opMulP (fun _ => BinaryOp.mul)
    let div := pMap opDivP (fun _ => BinaryOp.div)
    pMap (pPair (concatP fuel) (pMany0 (pPair (pAlt mul div) (concatP fuel))))
      (fun x => foldBinOpsL x.1 x.2)

/-- `concat` from `src/nix-parser/src/parser/expr.rs` (lines 177-189):
same pop-and-reverse fold as `update`, over `unary` operands. -/
def concatP : Nat → Parser (Partial Expr)
  | 0 => fun _ => .noFuel
  | fuel + 1 => fun input =>
    match pPair (unaryP fuel) (pMany0 (pPreceded opConcatP (unaryP fuel))) input with
    | .ok rest x =>
      let exprs := Partial.collect (x.1 :: x.2)
      (match exprs.value with
       | some es =>
         (match revChainFold .concat es with
          | some e => .ok rest ⟨some e, exprs.errors⟩
          | none => .panicked)
       | none => .ok rest ⟨none, exprs.errors⟩)
    | .errE e => .errE e
    | .errF e => .errF e
    | .noFuel => .noFuel
    | .panicked => .panicked

/-- `unary` from `src/nix-parser/src/parser/expr.rs` (lines 191-200):
optional `-`/`!` prefix (lifted into a `Partial` via `From<T>`, so its
value is always present), then `fn_app`, with the `error` fallback. -/
def unaryP : Nat → Parser (Partial Expr)
  | 0 => fun _ => .noFuel
  | fuel + 1 =>
    let neg := pMap opSubP (fun _ => UnaryOp.neg)
    let notp := pMap opNotP (fun _ => UnaryOp.not)
    let un := pairPartialC
      (pMap (pOpt (pAlt neg notp)) (fun o => Partial.new (some o)))
      (fnAppP fuel)
    let e := mapPartialSpanned un
      (fun span x =>
        match x.1 with
        | some op => Expr.unary op x.2 span
        | none => x.2)
    pAlt e errorP

/-- `fn_app` from `src/nix-parser/src/parser/expr.rs` (lines 202-213). -/
def fnAppP : Nat → Parser (Partial Expr)
  | 0 => fun _ => .noFuel
  | fuel + 1 =>
    pMap (pPair (projectP fuel) (pMany0 (projectP fuel)))
      (fun x => foldFnApp x.1 x.2)

/-- `project` from `src/nix-parser/src/parser/expr.rs` (lines 215-225):
an atom with an optional `.attr_path` projection (`verify_full`-ed). -/
def projectP : Nat → Parser (Partial Expr)
  | 0 => fun _ => .noFuel
  | fuel + 1 =>
    pMap (pPair (atomicP fuel) (pOpt (pPreceded dotP (verifyFullC (attrPathP fuel)))))
      (fun x =>
        match x.2 with
        | none => x.1
        | some path =>
          x.1.map (fun b =>
            Expr.proj b path none (Span.merge b.span path.span)))

/-- `atomic` from `src/nix-parser/src/parser/expr.rs` (lines 227-240),
in the source's `alt` order. -/
def atomicP : Nat → Parser (Partial Expr)
  | 0 => fun _ => .noFuel
  | fuel + 1 =>
    pAlt atomicIdentP
      (pAlt (parenP fuel)
        (pAlt (setP fuel)
          (pAlt (listP fuel)
            (pAlt (stringP fuel)
              (pAlt (interpolationAtomP fuel)
                (pAlt atomicLiteralP
                  (pAlt (recSetP fuel) (letSetP fuel))))))))

/-- `atomic::paren` — Modelled from the spec (module absent, §4.2/§3.3):
`( expr )` with the close parenthesis expected via `expect_terminated`,
preserved as a `Paren` node. -/
def parenP : Nat → Parser (Partial Expr)
  | 0 => fun _ => .noFuel
  | fuel + 1 =>
    mapPartialSpanned
      (expectTerminated (pPreceded lParenP (exprP fuel)) rParenP)
      (fun span inner => Expr.paren inner span)

/-- `atomic::set` — Modelled from the spec (module absent, §4.3):
`{ bind* }` with `many_till_partial(bind, rbrace)` and the close brace
expected via `expect_terminated`. -/
def setP : Nat → Parser (Partial Expr)
  | 0 => fun _ => .noFuel
  | fuel + 1 =>
    mapPartialSpanned
      (expectTerminated
        (pPreceded lBraceP (manyTillPartialC (bindP fuel) rBraceP fuel))
        rBraceP)
      (fun span binds => Expr.set binds span)

/-- `atomic::rec_set` — Modelled from the spec (module absent, §3.3):
`rec { bind* }`. -/
def recSetP : Nat → Parser (Partial Expr)
  | 0 => fun _ => .noFuel
  | fuel + 1 =>
    mapPartialSpanned
      (pPreceded kwRecP
        (expectTerminated
          (pPreceded lBraceP (manyTillPartialC (bindP fuel) rBraceP fuel))
          rBraceP))
      (fun span binds => Expr.recSet binds span)

/-- `atomic::let_set` — Modelled from the spec (module absent, §3.3):
the legacy `let { bind* }` form. -/
def letSetP : Nat → Parser (Partial Expr)
  | 0 => fun _ => .noFuel
  | fuel + 1 =>
    mapPartialSpanned
      (pPreceded kwLetP
        (expectTerminated
          (pPreceded lBraceP (manyTillPartialC (bindP fuel) rBraceP fuel))
          rBraceP))
      (fun span binds => Expr.letSet binds span)

/-- `atomic::list` — Modelled from the spec (module absent, §4.3):
`[ elem* ]`, the elements at the projection level (operators require
parentheses), recovered with `many_till_partial`. -/
def listP : Nat → Parser (Partial Expr)
  | 0 => fun _ => .noFuel
  | fuel + 1 =>
    mapPartialSpanned
      (expectTerminated
        (pPreceded lBracketP (manyTillPartialC (projectP fuel) rBracketP fuel))
        rBracketP)
      (fun span elems => Expr.list elems span)

/-- Modelled from the spec (§4.1/§4.5): parse the recursively lexed
token stream of one interpolation; a failed or valueless sub-parse
leaves an `Expr::Error` at the interpolation's span, carrying the
sub-parse diagnostics. -/
def interpInner : Nat → List Token → Span → PRes (Expr × Errors)
  | 0, _, _ => .noFuel
  | fuel + 1, toks, s =>
    match exprP fuel toks with
    | .ok _ p => .ok [] ((p.value).getD (.error s), p.errors)
    | .errE e => .ok [] (.error s, e)
    | .errF e => .ok [] (.error s, e)
    | .noFuel => .noFuel
    | .panicked => .panicked

/-- Modelled from the spec (§4.5): convert the lexed string fragments,
parsing each embedded interpolation. -/
def strFragsP : Nat → List TokStrFragment → PRes (List StrFragment × Errors)
  | 0, _ => .noFuel
  | fuel + 1, frags =>
    match frags with
    | [] => .ok [] ([], [])
    | .literal text s :: rest =>
      (match strFragsP fuel rest with
       | .ok _ x => .ok [] (StrFragment.literal text s :: x.1, x.2)
       | .errE e => .errE e
       | .errF e => .errF e
       | .noFuel => .noFuel
       | .panicked => .panicked)
    | .interpolation toks s :: rest =>
      (match interpInner fuel toks s with
       | .ok _ y =>
         (match strFragsP fuel rest with
          | .ok _ x =>
            .ok [] (StrFragment.interpolation y.1 s :: x.1, y.2 ++ x.2)
          | .errE e => .errE e
          | .errF e => .errF e
          | .noFuel => .noFuel
          | .panicked => .panicked)
       | .errE e => .errE e
       | .errF e => .errF e
       | .noFuel => .noFuel
       | .panicked => .panicked)

/-- `atomic::string` — Modelled from the spec (module absent, §4.5): a
`String` token becomes an `ExprString` with its fragments converted. -/
def stringP : Nat → Parser (Partial Expr)
  | 0 => fun _ => .noFuel
  | fuel + 1 => fun input =>
    match skipComments input with
    | [] => .panicked
    | .string frags s :: rest =>
      (match strFragsP fuel frags with
       | .ok _ x => .ok rest ⟨some (.string x.1 s), x.2⟩
       | .errE e => .errE e
       | .errF e => .errF e
       | .noFuel => .noFuel
       | .panicked => .panicked)
    | t :: _ => .errE [.unexpected t.description t.toSpan]

/-- `atomic::interpolation` — Modelled from the spec (module absent,
§3.3): a standalone `${ … }` token as an atomic expression. -/
def interpolationAtomP : Nat → Parser (Partial Expr)
  | 0 => fun _ => .noFuel
  | fuel + 1 => fun input =>
    match skipComments input with
    | [] => .panicked
    | .interpolation toks s :: rest =>
      (match interpInner fuel toks s with
       | .ok _ y => .ok rest ⟨some (.interpolation y.1 s), y.2⟩
       | .errE e => .errE e
       | .errF e => .errF e
       | .noFuel => .noFuel
       | .panicked => .panicked)
    | t :: _ => .errE [.unexpected t.description t.toSpan]

/-- `attr::attr_path` — Modelled from the spec (module absent, §3.3): a
non-empty `.`-separated sequence of segments, assembled with
`AttrPath::new`. -/
def attrPathP : Nat → Parser (Partial AttrPath)
  | 0 => fun _ => .noFuel
  | fuel + 1 =>
    pMap (pPair (attrSegP fuel) (pMany0 (pPreceded dotP (attrSegP fuel))))
      (fun x =>
        x.1.flatMap (fun s0 =>
          (Partial.collect x.2).map (fun ss => AttrPath.new (s0 :: ss))))

/-- Modelled from the spec (§3.3): one attribute-path segment — an
identifier, a string, or an interpolation. -/
def attrSegP : Nat → Parser (Partial AttrSegment)
  | 0 => fun _ => .noFuel
  | fuel + 1 => fun input =>
    match skipComments input with
    | [] => .panicked
    | .identifier text s :: rest =>
      .ok rest (Partial.new (some (.ident ⟨text, s⟩)))
    | .string frags s :: rest =>
      (match strFragsP fuel frags with
       | .ok _ x => .ok rest ⟨some (.string x.1 s), x.2⟩
       | .errE e => .errE e
       | .errF e => .errF e
       | .noFuel => .noFuel
       | .panicked => .panicked)
    | .interpolation toks s :: rest =>
      (match interpInner fuel toks s with
       | .ok _ y => .ok rest ⟨some (.interpolation y.1 s), y.2⟩
       | .errE e => .errE e
       | .errF e => .errF e
       | .noFuel => .noFuel
       | .panicked => .panicked)
    | t :: _ => .errE [.unexpected t.description t.toSpan]

/-- `bind::bind` — Modelled from the spec along the structure of the
string-level `src/nix-parser/src/parser/expr/bind.rs`:
`alt((inherit, inherit_expr, simple))`. -/
def bindP : Nat → Parser (Partial Bind)
  | 0 => fun _ => .noFuel
  | fuel + 1 =>
    pAlt bindInheritP (pAlt (bindInheritExprP fuel) (bindSimpleP fuel))

/-- Modelled from the spec along `inherit_expr` of
`src/nix-parser/src/parser/expr/bind.rs`: `inherit ( expr ) name+ ;`,
the close parenthesis and `;` being `cut`s, the expression
`verify_full`-ed. -/
def bindInheritExprP : Nat → Parser (Partial Bind)
  | 0 => fun _ => .noFuel
  | fuel + 1 => fun input =>
    pBind (pOpt commentP) (fun _ =>
      pBind kwInheritP (fun _ =>
        pBind lParenP (fun _ =>
          pBind (verifyFullC (exprP fuel)) (fun e =>
            pBind (pCut rParenP) (fun _ =>
              pBind (pMany1 identifierP) (fun names =>
                pMap (pCut semiP) (fun _ =>
                  Partial.new (some
                    (.inheritExpr e names (tokensSpan input)))))))))) input

/-- Modelled from the spec along `simple` of
`src/nix-parser/src/parser/expr/bind.rs`: an optional doc comment, an
attribute path, `=` (a `cut`), a `verify_full`-ed value and `;` (a
`cut`). -/
def bindSimpleP : Nat → Parser (Partial Bind)
  | 0 => fun _ => .noFuel
  | fuel + 1 => fun input =>
    pBind (pOpt commentP) (fun comment =>
      pBind (attrPathP fuel) (fun attrPart =>
        pBind (pCut eqSignP) (fun _ =>
          pBind (verifyFullC (exprP fuel)) (fun value =>
            pMap (pCut semiP) (fun _ =>
              attrPart.map (fun path =>
                Bind.simple comment path value (tokensSpan input))))))) input
end

/-- Modelled from the spec: the public entry point `parse_expression`
(§6.1) feeds the lexer's token stream to the expression parser and
returns the best-effort `(Option<Expr>, Diagnostics)` pair.  A
remainder of at most the final `Eof` token counts as full consumption
(`all_consuming`); a hard parser error becomes a valueless result
carrying its diagnostics. -/
def parseExpression (fuel : Nat) (ts : List Token) : Option Expr × Errors :=
  match exprP fuel ts with
  | .ok rest p =>
    (match skipComments rest with
     | [] => (p.value, p.errors)
     | [.eof _] => (p.value, p.errors)
     | t :: _ => (none, p.errors ++ [.unexpected t.description t.toSpan]))
  | .errE e => (none, e)
  | .errF e => (none, e)
  | .noFuel => (none, [])
  | .panicked => (none, [])

/-- Modelled from the spec: `parse_expression_strict` (§6.1), the
`parse_expr` entry of `src/nix-parser/src/parser.rs`:
`all_consuming(verify_full(expr))` — succeed iff the parse consumed
everything, produced a value and accumulated no diagnostics. -/
def parseExpressionStrict (fuel : Nat) (ts : List Token) : Except Errors Expr :=
  match exprP fuel ts with
  | .ok rest p =>
    (match skipComments rest with
     | [] => p.verify
     | [.eof _] => p.verify
     | t :: _ => .error (p.errors ++ [.unexpected t.description t.toSpan]))
  | .errE e => .error e
  | .errF e => .error e
  | .noFuel => .error []
  | .panicked => .error []

/-- `Result::is_ok`. -/
def exceptIsOk : Except Errors Expr → Bool
  | .ok _ => true
  | .error _ => false

/-- Whether a parser result is a (recoverable or hard) `nom` error. -/
def isErrB : PRes α → Bool
  | .errE _ => true
  | .errF _ => true
  | _ => false

/-- The spec's diagnostic ordering post-condition: each diagnostic's
primary-span start is at most that of every later one. -/
def sortedByStart : Errors → Bool
  | [] => true
  | [_] => true
  | a :: b :: rest => decide (a.span.start ≤ b.span.start) && sortedByStart (b :: rest)

/-- Is a token the `Eof` marker? -/
def isEofTok : Token → Bool
  | .eof _ => true
  | _ => false

/-- The shape of a lexer output stream: non-empty, `Eof` exactly at the
end (the lexer contract of §4.1: "Output: `Vec<Token>` terminated by
`Eof`"). -/
def shapeWF : List Token → Bool
  | [] => false
  | [t] => isEofTok t
  | t :: rest => !isEofTok t && shapeWF rest

mutual
/-- Modelled from the spec: recursive well-formedness of a token — the
recursively lexed sub-streams inside `Interpolation` and `String`
tokens satisfy the same lexer output contract. -/
def tokenWF : Token → Bool
  | .interpolation toks _ => shapeWF toks && listTokensWF toks
  | .string frags _ => fragsWF frags
  | _ => true

/-- All tokens of a list are well-formed. -/
def listTokensWF : List Token → Bool
  | [] => true
  | t :: rest => tokenWF t && listTokensWF rest

/-- All fragments of a lexed string are well-formed. -/
def fragsWF : List TokStrFragment → Bool
  | [] => true
  | .literal _ _ :: rest => fragsWF rest
  | .interpolation toks _ :: rest =>
    shapeWF toks && listTokensWF toks && fragsWF rest
end

/-- The lexer output contract, recursively. -/
def streamWF (ts : List Token) : Bool := shapeWF ts && listTokensWF ts

/-- No-panic and stream-preservation property of a parser: on every
well-formed stream it does not reach a panicking branch, and a
successful parse leaves a well-formed stream. -/
def NPanic (p : Parser α) : Prop :=
  ∀ input, streamWF input = true →
    p input ≠ .panicked ∧
    ∀ rest v, p input = .ok rest v → streamWF rest = true

/-- Value-someness of a partial parser: a successful parse always
carries a value (which keeps the `pop().unwrap()` of the
`update`/`concat` levels off the empty-vector branch). -/
def ValS (p : Parser (Partial α)) : Prop :=
  ∀ input rest v, p input = .ok rest v → v.value.isSome = true

/-- Tokens of `a // b // c` (spans as lexed from that text). -/
def tsUpd : List Token :=
  [.identifier "a" ⟨0,1⟩, .update ⟨2,4⟩, .identifier "b" ⟨5,6⟩,
   .update ⟨7,9⟩, .identifier "c" ⟨10,11⟩, .eof ⟨11,11⟩]

/-- What the code builds for `a // b // c`: the operands reversed,
`Binary(Update, Binary(Update, c, b), a)`. -/
def builtUpd : Expr :=
  .binary .update
    (.binary .update (.ident ⟨"c", ⟨10,11⟩⟩) (.ident ⟨"b", ⟨5,6⟩⟩) ⟨5,11⟩)
    (.ident ⟨"a", ⟨0,1⟩⟩) ⟨0,11⟩

/-- What the claim (right association) requires for `a // b // c`:
`Binary(Update, a, Binary(Update, b, c))`. -/
def claimedUpd : Expr :=
  .binary .update (.ident ⟨"a", ⟨0,1⟩⟩)
    (.binary .update (.ident ⟨"b", ⟨5,6⟩⟩) (.ident ⟨"c", ⟨10,11⟩⟩) ⟨5,11⟩)
    ⟨0,11⟩

/-- Tokens of `a ++ b ++ c`. -/
def tsCat : List Token :=
  [.identifier "a" ⟨0,1⟩, .concat ⟨2,4⟩, .identifier "b" ⟨5,6⟩,
   .concat ⟨7,9⟩, .identifier "c" ⟨10,11⟩, .eof ⟨11,11⟩]

/-- What the code builds for `a ++ b ++ c`. -/
def builtCat : Expr :=
  .binary .concat
    (.binary .concat (.ident ⟨"c", ⟨10,11⟩⟩) (.ident ⟨"b", ⟨5,6⟩⟩) ⟨5,11⟩)
    (.ident ⟨"a", ⟨0,1⟩⟩) ⟨0,11⟩

/-- What the claim requires for `a ++ b ++ c`. -/
def claimedCat : Expr :=
  .binary .concat (.ident ⟨"a", ⟨0,1⟩⟩)
    (.binary .concat (.ident ⟨"b", ⟨5,6⟩⟩) (.ident ⟨"c", ⟨10,11⟩⟩) ⟨5,11⟩)
    ⟨0,11⟩

/-- Tokens of `1 + ` (trailing operator, then end of input). -/
def tsTrail : List Token := [.integer "1" ⟨0,1⟩, .add ⟨2,3⟩, .eof ⟨4,4⟩]

/-- Tokens of `1 + ;`. -/
def tsTrailSemi : List Token :=
  [.integer "1" ⟨0,1⟩, .add ⟨2,3⟩, .semi ⟨4,5⟩, .eof ⟨5,5⟩]

/-- Tokens of `{a, b ? 2, ...}@args: a + b` (spans as lexed). -/
def c1toks : List Token :=
  [.lBrace ⟨0,1⟩, .identifier "a" ⟨1,2⟩, .comma ⟨2,3⟩, .identifier "b" ⟨4,5⟩,
   .question ⟨6,7⟩, .integer "2" ⟨8,9⟩, .comma ⟨9,10⟩, .ellipsis ⟨11,14⟩,
   .rBrace ⟨14,15⟩, .atSign ⟨15,16⟩, .identifier "args" ⟨16,20⟩, .colon ⟨20,21⟩,
   .identifier "a" ⟨22,23⟩, .add ⟨24,25⟩, .identifier "b" ⟨26,27⟩, .eof ⟨27,27⟩]

/-- The AST the strict parse of `{a, b ? 2, ...}@args: a + b` yields. -/
def c1parsed : Expr :=
  match parseExpressionStrict 60 c1toks with
  | .ok e => e
  | .error _ => .trap ⟨0, 0⟩

/-- Tokens of the pretty-printed form `{a, b ? 2, ...}@args:` (spans as
lexed from the printed text). -/
def c1ptoks : List Token :=
  [.lBrace ⟨0,1⟩, .identifier "a" ⟨1,2⟩, .comma ⟨2,3⟩, .identifier "b" ⟨4,5⟩,
   .question ⟨6,7⟩, .integer "2" ⟨8,9⟩, .comma ⟨9,10⟩, .ellipsis ⟨11,14⟩,
   .rBrace ⟨14,15⟩, .atSign ⟨15,16⟩, .identifier "args" ⟨16,20⟩, .colon ⟨20,21⟩,
   .eof ⟨21,21⟩]

/-- An element parser for the recovery-loop runs: an identifier's span
start. -/
def c3f : Parser (Partial Nat) :=
  pMap identifierP (fun id => Partial.new (some id.span.start))

/-- A stream whose one non-`Eof` token is unparsable: the loop skips it
(recording a diagnostic) and then reaches end-of-input. -/
def c3input : List Token :=
  [.unknown "?" ⟨0,1⟩ (.unexpected "`?`" ⟨0,1⟩), .eof ⟨1,1⟩]

/-- An element parser that records a diagnostic when its terminator is
missing (`expect_terminated`). -/
def c4f : Parser (Partial Nat) :=
  expectTerminated (pMap identifierP (fun _ => Partial.new (some (0 : Nat)))) semiP

/-- A skipped bad token (offset 0) before a diagnostic-carrying element
(offset 2, diagnostic at offset 4): the skip diagnostic is appended
after the element diagnostic. -/
def c4input : List Token :=
  [.unknown "?" ⟨0,1⟩ (.unexpected "`?`" ⟨0,1⟩), .identifier "x" ⟨2,3⟩,
   .rBrace ⟨4,5⟩, .eof ⟨5,5⟩]

/-- A first parser producing no value but a diagnostic. -/
def c5f : Parser (Partial Nat) := fun input =>
  .ok input ⟨none, [.unexpected "p" ⟨0,1⟩]⟩

/-- A second parser producing a value and a diagnostic. -/
def c5g : Parser (Partial Nat) := fun input =>
  .ok input ⟨some 7, [.unexpected "q" ⟨2,3⟩]⟩

/-- A formals lambda with no ellipsis (`{}: x`). -/
def c9decl : FnDecl := .formals [] none none (.ident ⟨"x", ⟨4,5⟩⟩) ⟨0,5⟩

/-- The expression wrapping `c9decl`. -/
def c9expr : Expr := .fnDecl c9decl

/-- An element parser that fails everywhere with a diagnostic (for the
loop-exit witnesses). -/
def c3wf : Parser (Partial Nat) := fun _ => .errE [.unexpected "f" ⟨0,1⟩]

/-- A terminator parser that fails everywhere. -/
def c3wg : Parser Nat := fun _ => .errE []

/-- A one-token stream at end-of-input. -/
def c3winput : List Token := [.eof ⟨3,3⟩]

/-- A terminator parser that matches everywhere (consuming nothing). -/
def c4wg : Parser Nat := fun input => .ok input 0

/-- A first parser with a value and a diagnostic (pairing witness). -/
def c5wf : Parser (Partial Nat) := fun input =>
  .ok input ⟨some 1, [.unexpected "a" ⟨0,1⟩]⟩

/-- A second parser with a value and a diagnostic (pairing witness). -/
def c5wg : Parser (Partial Nat) := fun input =>
  .ok input ⟨some 2, [.unexpected "b" ⟨1,2⟩]⟩

/-- Is a token a comment? -/
def isCommentTok : Token → Bool
  | .comment _ _ _ => true
  | _ => false

/-- The induction package for the grammar's no-panic proof: at a given
fuel, every parser of the expression grammar neither reaches a
panicking branch nor breaks the stream invariant (`NPanic`), and every
partial parser's success carries a value (`ValS`); the two sub-stream
helpers never panic on well-formed sub-streams. -/
structure GrammarOK (fuel : Nat) : Prop where
  expr : NPanic (exprP fuel)
  exprV : ValS (exprP fuel)
  function : NPanic (functionP fuel)
  functionV : ValS (functionP fuel)
  fnDecl : NPanic (fnDeclP fuel)
  fnDeclV : ValS (fnDeclP fuel)
  fnDeclSimple : NPanic (fnDeclSimpleP fuel)
  fnDeclSimpleV : ValS (fnDeclSimpleP fuel)
  fnDeclFormals : NPanic (fnDeclFormalsP fuel)
  fnDeclFormalsV : ValS (fnDeclFormalsP fuel)
  formal : NPanic (formalP fuel)
  formalV : ValS (formalP fuel)
  formalsTail : ∀ acc, NPanic (formalsTailP fuel acc)
  formalsTailV : ∀ acc, ValS (formalsTailP fuel acc)
  formalsInner : NPanic (formalsInnerP fuel)
  formalsInnerV : ValS (formalsInnerP fuel)
  withp : NPanic (withP fuel)
  withpV : ValS (withP fuel)
  assertp : NPanic (assertP fuel)
  assertpV : ValS (assertP fuel)
  letIn : NPanic (letInP fuel)
  letInV : ValS (letInP fuel)
  ifElse : NPanic (ifElseP fuel)
  ifElseV : ValS (ifElseP fuel)
  imply : NPanic (implyP fuel)
  implyV : ValS (implyP fuel)
  andp : NPanic (andP fuel)
  andpV : ValS (andP fuel)
  orp : NPanic (orP fuel)
  orpV : ValS (orP fuel)
  equality : NPanic (equalityP fuel)
  equalityV : ValS (equalityP fuel)
  compare : NPanic (compareP fuel)
  compareV : ValS (compareP fuel)
  update : NPanic (updateP fuel)
  updateV : ValS (updateP fuel)
  sum : NPanic (sumP fuel)
  sumV : ValS (sumP fuel)
  product : NPanic (productP fuel)
  productV : ValS (productP fuel)
  concat : NPanic (concatP fuel)
  concatV : ValS (concatP fuel)
  unary : NPanic (unaryP fuel)
  unaryV : ValS (unaryP fuel)
  fnApp : NPanic (fnAppP fuel)
  fnAppV : ValS (fnAppP fuel)
  project : NPanic (projectP fuel)
  projectV : ValS (projectP fuel)
  atomic : NPanic (atomicP fuel)
  atomicV : ValS (atomicP fuel)
  paren : NPanic (parenP fuel)
  parenV : ValS (parenP fuel)
  set : NPanic (setP fuel)
  setV : ValS (setP fuel)
  recSet : NPanic (recSetP fuel)
  recSetV : ValS (recSetP fuel)
  letSet : NPanic (letSetP fuel)
  letSetV : ValS (letSetP fuel)
  list : NPanic (listP fuel)
  listV : ValS (listP fuel)
  string : NPanic (stringP fuel)
  stringV : ValS (stringP fuel)
  interpolationAtom : NPanic (interpolationAtomP fuel)
  interpolationAtomV : ValS (interpolationAtomP fuel)
  attrSeg : NPanic (attrSegP fuel)
  attrSegV : ValS (attrSegP fuel)
  attrPath : NPanic (attrPathP fuel)
  attrPathV : ValS (attrPathP fuel)
  bind : NPanic (bindP fuel)
  bindV : ValS (bindP fuel)
  bindInheritExpr : NPanic (bindInheritExprP fuel)
  bindInheritExprV : ValS (bindInheritExprP fuel)
  bindSimple : NPanic (bindSimpleP fuel)
  bindSimpleV : ValS (bindSimpleP fuel)
  interpInnerNP : ∀ toks s, streamWF toks = true →
    interpInner fuel toks s ≠ .panicked
  strFragsNP : ∀ frags, fragsWF frags = true →
    strFragsP fuel frags ≠ .panicked

theorem collectAux_eq (l : List (Partial α)) (vs : List α) (es : Errors) :
    Partial.collectAux l vs es =
      (vs ++ l.filterMap Partial.value, es ++ (l.map Partial.errors).flatten) := by
  induction l generalizing vs es with
  | nil => simp [Partial.collectAux]
  | cons p rest ih =>
    simp only [Partial.collectAux, Partial.errorsOpt, Partial.hasErrors]
    by_cases hpe : p.errors.isEmpty
    · have hnil : p.errors = [] := List.isEmpty_iff.mp hpe
      cases hv : p.value <;>
        simp [hpe, hnil, ih, hv, List.filterMap_cons, List.append_assoc]
    · cases hv : p.value <;>
        simp [hpe, ih, hv, List.filterMap_cons, List.append_assoc]

theorem collect_eq (l : List (Partial α)) :
    Partial.collect l =
      ⟨some (l.filterMap Partial.value), (l.map Partial.errors).flatten⟩ := by
  simp [Partial.collect, collectAux_eq]

/-- C10: collecting a finite list of `Partial<T>` into `Partial<Vec<T>>`
always yields a present value — the values of the valued elements in
iteration order — and an error stack that is the concatenation of all
elements' errors in iteration order. -/
theorem claim_C10 (α : Type) (l : List (Partial α)) :
    Partial.collect l =
      ⟨some (l.filterMap Partial.value), (l.map Partial.errors).flatten⟩ :=
  collect_eq l

/-- C6: `Partial::verify` returns `Ok(v)` exactly when the value is
`Some(v)` and the error stack is empty; in every other case it returns
`Err` with the accumulated errors. -/
theorem claim_C6 (α : Type) (p : Partial α) :
    (∀ v : α, p.verify = .ok v ↔ p.value = some v ∧ p.errors = []) ∧
    ((p.value = none ∨ p.errors ≠ []) → p.verify = .error p.errors) := by
  obtain ⟨val, errs⟩ := p
  constructor
  · intro v
    cases val <;> cases errs <;>
      simp [Partial.verify, Partial.hasErrors]
  · intro h
    cases val <;> cases errs <;>
      simp_all [Partial.verify, Partial.hasErrors]

/-- C5 (amended): `pair_partial(p, q)` runs both parsers; its value is
`Some((a, b))` exactly when both produced values.  When `p` produced a
value the diagnostics are `p`'s followed by `q`'s; when `p` produced no
value, `q`'s diagnostics are dropped and only `p`'s remain. -/
theorem claim_C5 (α β : Type) (f : Parser (Partial α)) (g : Parser (Partial β))
    (input rest1 rest2 : List Token) (p1 : Partial α) (p2 : Partial β)
    (hf : f input = .ok rest1 p1) (hg : g rest1 = .ok rest2 p2) :
    pairPartialC f g input =
      .ok rest2
        ⟨(match p1.value, p2.value with
          | some a, some b => some (a, b)
          | _, _ => none),
         (match p1.value with
          | some _ => p1.errors ++ p2.errors
          | none => p1.errors)⟩ := by
  obtain ⟨v1, e1⟩ := p1
  obtain ⟨v2, e2⟩ := p2
  cases v1 <;> cases v2 <;>
    simp [pairPartialC, hf, hg, Partial.flatMap, Partial.map]

/-- Witness for C5: both parsers produce values, diagnostics
concatenate. -/
theorem claim_C5_witness :
    pairPartialC c5wf c5wg [] =
      .ok [] ⟨some (1, 2), [.unexpected "a" ⟨0,1⟩, .unexpected "b" ⟨1,2⟩]⟩ :=
  claim_C5 Nat Nat c5wf c5wg [] [] []
    ⟨some 1, [.unexpected "a" ⟨0,1⟩]⟩ ⟨some 2, [.unexpected "b" ⟨1,2⟩]⟩ rfl rfl

/-- Counterexample for C5 as stated: when `p` produces no value, `q`'s
diagnostic is NOT present in the result. -/
theorem claim_C5_cex :
    pairPartialC c5f c5g [] = .ok [] ⟨none, [.unexpected "p" ⟨0,1⟩]⟩ ∧
    ¬ Err.unexpected "q" ⟨2,3⟩ ∈ ([.unexpected "p" ⟨0,1⟩] : Errors) :=
  ⟨rfl, by decide⟩

/-- C3 (amended): when an error-recovery loop reaches end-of-input
before its terminator, it returns the collected element partials — the
element diagnostics survive — but the diagnostics accumulated from
skipped tokens (the loop's `errors` state) are dropped, in both
`many_till_partial` and `separated_list_partial`. -/
theorem claim_C3 (α β γ δ : Type) (f : Parser (Partial α)) (g : Parser β)
    (sep : Parser γ) (term : Parser δ) (fuel : Nat)
    (partials : List (Partial α)) (errs : Errors) (input : List Token) (s : Span)
    (hg : isErrB (g input) = true) (hf : isErrB (f input) = true)
    (hterm : isErrB (term input) = true)
    (hsf : isErrB (pPreceded sep f input) = true)
    (he : eofP input = .ok input s) :
    manyTillAux f g (fuel + 1) partials errs input =
      .ok input (Partial.collect partials) ∧
    sepListAux sep f term (fuel + 1) partials errs input =
      .ok input (Partial.collect partials) := by
  constructor
  · unfold manyTillAux
    cases hg' : g input <;> simp [hg', isErrB] at hg ⊢ <;>
      cases hf' : f input <;> simp [hf', isErrB] at hf ⊢ <;>
        simp [he]
  · unfold sepListAux
    cases ht' : term input <;> simp [ht', isErrB] at hterm ⊢ <;>
      cases hs' : pPreceded sep f input <;> simp [hs', isErrB] at hsf ⊢ <;>
        simp [he]

/-- Witness for C3: at `Eof` with one pending skip diagnostic and one
collected element, both loops return only the element's partial. -/
theorem claim_C3_witness :
    manyTillAux c3wf c3wg 5 [⟨some 1, [.unexpected "elem" ⟨0,1⟩]⟩]
        [.unexpected "skipped" ⟨0,1⟩] c3winput =
      .ok c3winput (Partial.collect [⟨some 1, [.unexpected "elem" ⟨0,1⟩]⟩]) ∧
    sepListAux c3wg c3wf c3wg 5 [⟨some 1, [.unexpected "elem" ⟨0,1⟩]⟩]
        [.unexpected "skipped" ⟨0,1⟩] c3winput =
      .ok c3winput (Partial.collect [⟨some 1, [.unexpected "elem" ⟨0,1⟩]⟩]) :=
  claim_C3 Nat Nat Nat Nat c3wf c3wg c3wg c3wg 4
    [⟨some 1, [.unexpected "elem" ⟨0,1⟩]⟩] [.unexpected "skipped" ⟨0,1⟩]
    c3winput ⟨3,3⟩ rfl rfl rfl rfl rfl

/-- Counterexample for C3 as stated: the element parser fails at the bad
token with a diagnostic — which the loop records while skipping — yet
the `Partial` returned at end-of-input carries no diagnostics at all. -/
theorem claim_C3_cex :
    manyTillPartialC c3f rBraceP 10 c3input = .ok [.eof ⟨1,1⟩] ⟨some [], []⟩ ∧
    c3f c3input = .errE [.unexpected "`?`" ⟨0,1⟩] :=
  ⟨rfl, rfl⟩

/-- C4 (amended): at the terminator, `many_till_partial` returns the
collected element partials with the skipped-token diagnostics appended
AFTER all element diagnostics, so the returned list is not in general
sorted by primary-span start. -/
theorem claim_C4 (α β : Type) (f : Parser (Partial α)) (g : Parser β)
    (fuel : Nat) (partials : List (Partial α)) (errs : Errors)
    (input rest : List Token) (v : β) (hg : g input = .ok rest v) :
    manyTillAux f g (fuel + 1) partials errs input =
      .ok input ((Partial.collect partials).extendErrors errs) := by
  unfold manyTillAux
  simp [hg]

/-- Witness for C4: a matching terminator returns the element partial
with the pending skip diagnostics appended after its own. -/
theorem claim_C4_witness :
    manyTillAux c3wf c4wg 5 [⟨some 1, [.unexpected "elem" ⟨2,3⟩]⟩]
        [.unexpected "skipped" ⟨0,1⟩] c3winput =
      .ok c3winput
        ((Partial.collect [⟨some 1, [.unexpected "elem" ⟨2,3⟩]⟩]).extendErrors
          [.unexpected "skipped" ⟨0,1⟩]) :=
  claim_C4 Nat Nat c3wf c4wg 4 [⟨some 1, [.unexpected "elem" ⟨2,3⟩]⟩]
    [.unexpected "skipped" ⟨0,1⟩] c3winput c3winput 0 rfl

/-- Counterexample for C4 as stated: a real `many_till_partial` run
(skipped bad token at offset 0, diagnostic-carrying element at offset 2
with its diagnostic at offset 4) returns diagnostics ordered
`[offset 4, offset 0]` — not sorted by primary-span start. -/
theorem claim_C4_cex :
    manyTillPartialC c4f rBraceP 10 c4input =
      .ok [.rBrace ⟨4,5⟩, .eof ⟨5,5⟩]
        ⟨some [0], [.unexpected "right brace" ⟨4,5⟩, .unexpected "`?`" ⟨0,1⟩]⟩ ∧
    sortedByStart [.unexpected "right brace" ⟨4,5⟩, .unexpected "`?`" ⟨0,1⟩]
      = false :=
  ⟨rfl, rfl⟩

/-- C9: the code's equality is NOT reflexive — a formals lambda without
an ellipsis compares unequal to itself (`FnDeclFormals::eq` uses
`is_some() && is_some()`), even though equality elsewhere is indeed
span-insensitive (two `Paren` nodes differing only in spans compare
equal). -/
theorem claim_C9 :
    exprEq c9expr c9expr = false ∧
    exprEq (.paren (.error ⟨0,1⟩) ⟨0,3⟩) (.paren (.error ⟨0,1⟩) ⟨7,9⟩) = true :=
  ⟨rfl, rfl⟩

/-- C1: the round-trip law fails on the code.  The strict parse of
`{a, b ? 2, ...}@args: a + b` succeeds, but pretty-printing the result
yields `{a, b ? 2, ...}@args:` — `Display for FnDeclFormals` drops the
lambda body — and the strict parse of that printed form fails. -/
theorem claim_C1 :
    exceptIsOk (parseExpressionStrict 60 c1toks) = true ∧
    exprToStr c1parsed = "\x7ba, b ? 2, ...\x7d@args:" ∧
    exceptIsOk (parseExpressionStrict 60 c1ptoks) = false :=
  ⟨rfl, rfl, rfl⟩

/-- C2: the code parses `a // b // c` as
`Binary(Update, Binary(Update, c, b), a)` — the operands come out
reversed, `(c // b) // a` — and `a ++ b ++ c` likewise as
`Binary(Concat, Binary(Concat, c, b), a)`; neither equals the
right-associated tree the claim requires. -/
theorem claim_C2 :
    exprP 40 tsUpd = .ok [.eof ⟨11,11⟩] ⟨some builtUpd, []⟩ ∧
    exprP 40 tsCat = .ok [.eof ⟨11,11⟩] ⟨some builtCat, []⟩ ∧
    exprEq builtUpd claimedUpd = false ∧
    exprEq builtCat claimedCat = false :=
  ⟨rfl, rfl, rfl, rfl⟩

/-- C8 (amended): the `error` fallback refuses end-of-input, so for
`1 + ` the sum level parses only the literal `1`, leaves the `+`
unconsumed and reports no diagnostic; the claimed
`Binary(Add, 1, Error(span))` with one diagnostic arises when the
missing operand position holds a non-`Eof` token, as in `1 + ;`. -/
theorem claim_C8 :
    exprP 40 tsTrailSemi =
      .ok [.eof ⟨5,5⟩]
        ⟨some (.binary .add (.literal (.integer "1" ⟨0,1⟩)) (.error ⟨4,5⟩) ⟨0,5⟩),
         [.unexpected "semicolon" ⟨4,5⟩]⟩ ∧
    errorP [.eof ⟨4,4⟩] = .errE [.unexpected "<eof>" ⟨4,4⟩] ∧
    exprP 40 tsTrail =
      .ok [.add ⟨2,3⟩, .eof ⟨4,4⟩] ⟨some (.literal (.integer "1" ⟨0,1⟩)), []⟩ :=
  ⟨rfl, rfl, rfl⟩

/-- Counterexample for C8 as stated: the best-effort parse of `1 + `
returns no value at all (the `+` is left unconsumed and surfaces as the
entry point's leftover-input diagnostic) — not
`Binary(Add, 1, Error(span))` with an unexpected-EOF diagnostic. -/
theorem claim_C8_cex :
    parseExpression 40 tsTrail = (none, [.unexpected "operator `+`" ⟨2,3⟩]) :=
  rfl

theorem skipComments_comment :
    skipComments (.comment a b c :: rest) = skipComments rest := rfl

theorem skipComments_other (t : Token) (rest : List Token)
    (h : isCommentTok t = false) : skipComments (t :: rest) = t :: rest := by
  cases t <;> simp [isCommentTok] at h ⊢ <;> rfl

theorem shapeWF_cons {t : Token} {rest : List Token}
    (h : shapeWF (t :: rest) = true) :
    (rest = [] ∧ isEofTok t = true) ∨
    (isEofTok t = false ∧ shapeWF rest = true) := by
  cases rest with
  | nil => simp [shapeWF] at h; exact .inl ⟨rfl, h⟩
  | cons r rs =>
    simp [shapeWF] at h
    exact .inr ⟨by simp [h.1], h.2⟩

theorem listTokensWF_cons {t : Token} {rest : List Token}
    (h : listTokensWF (t :: rest) = true) :
    tokenWF t = true ∧ listTokensWF rest = true := by
  simpa [listTokensWF, Bool.and_eq_true] using h

theorem streamWF_tail {t : Token} {rest : List Token}
    (ht : isEofTok t = false) (h : streamWF (t :: rest) = true) :
    streamWF rest = true := by
  unfold streamWF at h ⊢
  rw [Bool.and_eq_true] at h ⊢
  obtain ⟨hs, hl⟩ := h
  rcases shapeWF_cons hs with ⟨_, he⟩ | ⟨_, hs'⟩
  · rw [he] at ht; cases ht
  · exact ⟨hs', (listTokensWF_cons hl).2⟩

theorem isCommentTok_not_eof {t : Token} (h : isCommentTok t = true) :
    isEofTok t = false := by
  cases t <;> simp_all [isCommentTok, isEofTok]

theorem streamWF_skip : ∀ {ts : List Token}, streamWF ts = true →
    streamWF (skipComments ts) = true := by
  intro ts
  induction ts with
  | nil => intro h; simp [streamWF, shapeWF] at h
  | cons t rest ih =>
    intro h
    by_cases hc : isCommentTok t = true
    · cases t <;> simp [isCommentTok] at hc
      rw [skipComments_comment]
      exact ih (streamWF_tail (by simp [isEofTok]) h)
    · rw [skipComments_other t rest (by simpa using hc)]
      exact h

theorem streamWF_ne_nil {ts : List Token} (h : streamWF ts = true) :
    ts ≠ [] := by
  intro hnil
  subst hnil
  simp [streamWF, shapeWF] at h

theorem np_errE (e : Errors) : NPanic (fun _ : List Token => (.errE e : PRes α)) := by
  intro input _
  exact ⟨by simp, fun rest v h => by cases h⟩

theorem np_pure (v : α) : NPanic (fun input => (.ok input v : PRes α)) := by
  intro input hwf
  refine ⟨by simp, fun rest w hok => ?_⟩
  cases hok
  exact hwf

theorem pMap_np (p : Parser α) (f : α → β) (hp : NPanic p) :
    NPanic (pMap p f) := by
  intro input hwf
  obtain ⟨hnp, hok⟩ := hp input hwf
  constructor
  · unfold pMap
    cases hpi : p input <;> simp
    exact hnp hpi
  · intro rest v h
    unfold pMap at h
    cases hpi : p input <;> rw [hpi] at h <;> cases h
    exact hok _ _ hpi

theorem pMap_vs (p : Parser (Partial α)) (f : α → β) (hp : ValS p) :
    ValS (pMap p (fun part => part.map f)) := by
  intro input rest v h
  unfold pMap at h
  cases hpi : p input <;> rw [hpi] at h <;> cases h
  have := hp _ _ _ hpi
  simp [Partial.map, Option.isSome_map]
  simp_all [Option.isSome]

theorem pPreceded_np (p : Parser α) (q : Parser β) (hp : NPanic p)
    (hq : NPanic q) : NPanic (pPreceded p q) := by
  intro input hwf
  obtain ⟨hnp, hok⟩ := hp input hwf
  constructor
  · unfold pPreceded
    cases hpi : p input <;> simp
    · exact (hq _ (hok _ _ hpi)).1
    · exact hnp hpi
  · intro rest v h
    unfold pPreceded at h
    cases hpi : p input <;> rw [hpi] at h
    case ok r w => exact (hq _ (hok _ _ hpi)).2 _ _ h
    all_goals cases h

theorem pPreceded_vs (p : Parser α) (q : Parser (Partial β)) (hq : ValS q) :
    ValS (pPreceded p q) := by
  intro input rest v h
  unfold pPreceded at h
  cases hpi : p input <;> rw [hpi] at h
  case ok r w => exact hq _ _ _ h
  all_goals cases h

theorem pTerminated_np (p : Parser α) (q : Parser β) (hp : NPanic p)
    (hq : NPanic q) : NPanic (pTerminated p q) := by
  intro input hwf
  obtain ⟨hnp, hok⟩ := hp input hwf
  constructor
  · unfold pTerminated
    cases hpi : p input <;> simp
    · cases hqi : q _ <;> simp
      exact (hq _ (hok _ _ hpi)).1 hqi
    · exact hnp hpi
  · intro rest v h
    unfold pTerminated at h
    cases hpi : p input <;> rw [hpi] at h
    case ok r w =>
      dsimp only at h
      cases hqi : q r <;> rw [hqi] at h <;> cases h
      exact (hq _ (hok _ _ hpi)).2 _ _ hqi
    all_goals cases h

theorem pTerminated_vs (p : Parser (Partial α)) (q : Parser β) (hp : ValS p) :
    ValS (pTerminated p q) := by
  intro input rest v h
  unfold pTerminated at h
  cases hpi : p input <;> rw [hpi] at h
  case ok r w =>
    dsimp only at h
    cases hqi : q r <;> rw [hqi] at h <;> cases h
    exact hp _ _ _ hpi
  all_goals cases h

theorem pPair_np (p : Parser α) (q : Parser β) (hp : NPanic p)
    (hq : NPanic q) : NPanic (pPair p q) := by
  intro input hwf
  obtain ⟨hnp, hok⟩ := hp input hwf
  constructor
  · unfold pPair
    cases hpi : p input <;> simp
    · cases hqi : q _ <;> simp
      exact (hq _ (hok _ _ hpi)).1 hqi
    · exact hnp hpi
  · intro rest v h
    unfold pPair at h
    cases hpi : p input <;> rw [hpi] at h
    case ok r w =>
      dsimp only at h
      cases hqi : q r <;> rw [hqi] at h <;> cases h
      exact (hq _ (hok _ _ hpi)).2 _ _ hqi
    all_goals cases h

theorem pOpt_np (p : Parser α) (hp : NPanic p) : NPanic (pOpt p) := by
  intro input hwf
  obtain ⟨hnp, hok⟩ := hp input hwf
  constructor
  · unfold pOpt
    cases hpi : p input <;> simp
    exact hnp hpi
  · intro rest v h
    unfold pOpt at h
    cases hpi : p input <;> rw [hpi] at h <;> cases h
    · exact hok _ _ hpi
    · exact hwf

theorem pAlt_np (p q : Parser α) (hp : NPanic p) (hq : NPanic q) :
    NPanic (pAlt p q) := by
  intro input hwf
  obtain ⟨hnp, hok⟩ := hp input hwf
  constructor
  · unfold pAlt
    cases hpi : p input <;> simp
    · exact (hq input hwf).1
    · exact hnp hpi
  · intro rest v h
    unfold pAlt at h
    cases hpi : p input <;> rw [hpi] at h
    case ok r w => cases h; exact hok _ _ hpi
    case errE e => exact (hq input hwf).2 _ _ h
    all_goals cases h

theorem pAlt_vs (p q : Parser (Partial α)) (hp : ValS p) (hq : ValS q) :
    ValS (pAlt p q) := by
  intro input rest v h
  unfold pAlt at h
  cases hpi : p input <;> rw [hpi] at h
  case ok r w => cases h; exact hp _ _ _ hpi
  case errE e => exact hq _ _ _ h
  all_goals cases h

theorem pCut_np (p : Parser α) (hp : NPanic p) : NPanic (pCut p) := by
  intro input hwf
  obtain ⟨hnp, hok⟩ := hp input hwf
  constructor
  · unfold pCut
    cases hpi : p input <;> simp
    exact hnp hpi
  · intro rest v h
    unfold pCut at h
    cases hpi : p input <;> rw [hpi] at h <;> cases h
    exact hok _ _ hpi

theorem pBind_np (p : Parser α) (f : α → Parser β) (hp : NPanic p)
    (hf : ∀ a, NPanic (f a)) : NPanic (pBind p f) := by
  intro input hwf
  obtain ⟨hnp, hok⟩ := hp input hwf
  constructor
  · unfold pBind
    cases hpi : p input <;> simp
    · exact (hf _ _ (hok _ _ hpi)).1
    · exact hnp hpi
  · intro rest v h
    unfold pBind at h
    cases hpi : p input <;> rw [hpi] at h
    case ok r w => exact (hf _ _ (hok _ _ hpi)).2 _ _ h
    all_goals cases h

theorem pBind_vs (p : Parser α) (f : α → Parser (Partial β))
    (hf : ∀ a, ValS (f a)) : ValS (pBind p f) := by
  intro input rest v h
  unfold pBind at h
  cases hpi : p input <;> rw [hpi] at h
  case ok r w => exact hf _ _ _ _ h
  all_goals cases h

theorem tokenP_np (m : Token → Option α) (hm : ∀ s, m (.eof s) = none) :
    NPanic (tokenP m) := by
  intro input hwf
  have hsk := streamWF_skip hwf
  constructor
  · unfold tokenP
    cases hs : skipComments input with
    | nil => exact absurd hs (streamWF_ne_nil hsk)
    | cons t rest => cases hmt : m t <;> simp [hmt]
  · intro rest v h
    unfold tokenP at h
    cases hs : skipComments input with
    | nil => rw [hs] at h; cases h
    | cons t rest' =>
      rw [hs] at h
      dsimp only at h
      cases hmt : m t with
      | none => rw [hmt] at h; cases h
      | some w =>
        rw [hmt] at h
        cases h
        have htne : isEofTok t = false := by
          cases t <;> simp [isEofTok]
          exact absurd hmt (by simp [hm])
        exact streamWF_tail htne (hs ▸ hsk)

theorem commentP_np : NPanic commentP := by
  intro input hwf
  constructor
  · unfold commentP
    cases hi : input with
    | nil => exact absurd hi (streamWF_ne_nil hwf)
    | cons t rest => cases t <;> simp
  · intro rest v h
    unfold commentP at h
    cases hi : input with
    | nil => rw [hi] at h; cases h
    | cons t rest' =>
      rw [hi] at h
      cases t <;> cases h
      exact streamWF_tail (by simp [isEofTok]) (hi ▸ hwf)

theorem eofP_np : NPanic eofP := by
  intro input hwf
  have hsk := streamWF_skip hwf
  constructor
  · unfold eofP
    cases hs : skipComments input with
    | nil => exact absurd hs (streamWF_ne_nil hsk)
    | cons t rest => cases t <;> simp
  · intro rest v h
    unfold eofP at h
    cases hs : skipComments input with
    | nil => rw [hs] at h; cases h
    | cons t rest' =>
      rw [hs] at h
      cases t <;> cases h
      exact hwf

theorem errorP_np : NPanic errorP := by
  intro input hwf
  constructor
  · unfold errorP take1
    cases hi : input with
    | nil => simp
    | cons t rest => cases t <;> simp
  · intro rest v h
    unfold errorP take1 at h
    cases hi : input with
    | nil => rw [hi] at h; cases h
    | cons t rest' =>
      rw [hi] at h
      cases t <;> cases h
      all_goals exact streamWF_tail (by simp [isEofTok]) (hi ▸ hwf)

theorem errorP_vs : ValS errorP := by
  intro input rest v h
  unfold errorP take1 at h
  cases hi : input with
  | nil => rw [hi] at h; cases h
  | cons t rest' =>
    rw [hi] at h
    cases t <;> cases h <;> simp

theorem errorExprIf_np (p : Parser Span) (found : String) (hp : NPanic p) :
    NPanic (errorExprIf p found) := by
  intro input hwf
  obtain ⟨hnp, _⟩ := hp input hwf
  constructor
  · unfold errorExprIf
    cases hpi : p input <;> simp
    exact hnp hpi
  · intro rest v h
    unfold errorExprIf at h
    cases hpi : p input <;> rw [hpi] at h <;> cases h
    exact hwf

theorem errorExprIf_vs (p : Parser Span) (found : String) :
    ValS (errorExprIf p found) := by
  intro input rest v h
  unfold errorExprIf at h
  cases hpi : p input <;> rw [hpi] at h <;> cases h
  simp

theorem many0Aux_np (p : Parser α) (hp : NPanic p) :
    ∀ fuel, NPanic (fun input => many0Aux p fuel input) := by
  intro fuel
  induction fuel with
  | zero =>
    intro input hwf
    exact ⟨by simp [many0Aux], fun rest v h => by cases h⟩
  | succ fuel ih =>
    intro input hwf
    obtain ⟨hnp, hok⟩ := hp input hwf
    constructor
    · show ¬ many0Aux p (fuel + 1) input = .panicked
      unfold many0Aux
      cases hpi : p input with
      | ok r w =>
        dsimp only
        by_cases hlen : r.length = input.length
        · rw [if_pos hlen]; simp
        · rw [if_neg hlen]
          cases hrec : many0Aux p fuel r <;> simp
          exact (ih r (hok _ _ hpi)).1 hrec
      | errE e => simp
      | errF e => simp
      | noFuel => simp
      | panicked => exact absurd hpi hnp
    · intro rest v h
      show streamWF rest = true
      unfold many0Aux at h
      cases hpi : p input <;> rw [hpi] at h
      case ok r w =>
        dsimp only at h
        by_cases hlen : r.length = input.length
        · rw [if_pos hlen] at h; cases h
        · rw [if_neg hlen] at h
          cases hrec : many0Aux p fuel r <;> rw [hrec] at h <;> cases h
          exact (ih r (hok _ _ hpi)).2 _ _ hrec
      case errE e => cases h; exact hwf
      all_goals cases h

theorem pMany0_np (p : Parser α) (hp : NPanic p) : NPanic (pMany0 p) := by
  intro input hwf
  exact many0Aux_np p hp (input.length + 1) input hwf

theorem pMany1_np (p : Parser α) (hp : NPanic p) : NPanic (pMany1 p) :=
  pMap_np _ _ (pPair_np _ _ hp (pMany0_np p hp))

theorem expectTerminated_np (f : Parser (Partial α)) (term : Parser β)
    (hf : NPanic f) (ht : NPanic term) : NPanic (expectTerminated f term) := by
  intro input hwf
  have htm := pTerminated_np f term hf ht input hwf
  obtain ⟨hnp, hok⟩ := htm
  obtain ⟨hfnp, hfok⟩ := hf input hwf
  constructor
  · unfold expectTerminated
    cases hti : pTerminated f term input <;> simp
    · cases hfi : f input <;> simp
      exact hfnp hfi
    · exact hnp hti
  · intro rest v h
    unfold expectTerminated at h
    cases hti : pTerminated f term input <;> rw [hti] at h
    case ok r w => cases h; exact hok _ _ hti
    case errE e =>
      dsimp only at h
      cases hfi : f input <;> rw [hfi] at h <;> cases h
      exact hfok _ _ hfi
    all_goals cases h

theorem expectTerminated_vs (f : Parser (Partial α)) (term : Parser β)
    (hf : ValS f) : ValS (expectTerminated f term) := by
  intro input rest v h
  unfold expectTerminated at h
  cases hti : pTerminated f term input <;> rw [hti] at h
  case ok r w =>
    cases h
    exact pTerminated_vs f term hf _ _ _ hti
  case errE e =>
    dsimp only at h
    cases hfi : f input <;> rw [hfi] at h <;> cases h
    have hs := hf _ _ _ hfi
    simpa [Partial.extendErrors] using hs
  all_goals cases h

theorem mapPartialSpanned_np (p : Parser (Partial α)) (f : Span → α → β)
    (hp : NPanic p) : NPanic (mapPartialSpanned p f) := by
  intro input hwf
  obtain ⟨hnp, hok⟩ := hp input hwf
  constructor
  · unfold mapPartialSpanned
    cases hpi : p input <;> simp
    exact hnp hpi
  · intro rest v h
    unfold mapPartialSpanned at h
    cases hpi : p input <;> rw [hpi] at h <;> cases h
    exact hok _ _ hpi

theorem mapPartialSpanned_vs (p : Parser (Partial α)) (f : Span → α → β)
    (hp : ValS p) : ValS (mapPartialSpanned p f) := by
  intro input rest v h
  unfold mapPartialSpanned at h
  cases hpi : p input <;> rw [hpi] at h
  case ok r w =>
    cases h
    have hs := hp _ _ _ hpi
    cases hv : w.value <;> simp_all [Partial.map]
  all_goals cases h

theorem pairPartialC_np (f : Parser (Partial α)) (g : Parser (Partial β))
    (hf : NPanic f) (hg : NPanic g) : NPanic (pairPartialC f g) := by
  intro input hwf
  obtain ⟨hfnp, hfok⟩ := hf input hwf
  constructor
  · unfold pairPartialC
    cases hfi : f input <;> simp
    · cases hgi : g _ <;> simp
      exact (hg _ (hfok _ _ hfi)).1 hgi
    · exact hfnp hfi
  · intro rest v h
    unfold pairPartialC at h
    cases hfi : f input <;> rw [hfi] at h
    case ok r w =>
      dsimp only at h
      cases hgi : g r <;> rw [hgi] at h <;> cases h
      exact (hg _ (hfok _ _ hfi)).2 _ _ hgi
    all_goals cases h

theorem pairPartialC_vs (f : Parser (Partial α)) (g : Parser (Partial β))
    (hf : ValS f) (hg : ValS g) : ValS (pairPartialC f g) := by
  intro input rest v h
  unfold pairPartialC at h
  cases hfi : f input <;> rw [hfi] at h
  case ok r w =>
    dsimp only at h
    cases hgi : g r <;> rw [hgi] at h
    case ok r2 w2 =>
      cases h
      have h1 := hf _ _ _ hfi
      have h2 := hg _ _ _ hgi
      cases hv1 : w.value <;> cases hv2 : w2.value <;>
        simp_all [Partial.flatMap, Partial.map]
    all_goals cases h
  all_goals cases h

theorem verifyFullC_np (f : Parser (Partial α)) (hf : NPanic f) :
    NPanic (verifyFullC f) := by
  intro input hwf
  obtain ⟨hnp, hok⟩ := hf input hwf
  constructor
  · unfold verifyFullC
    cases hfi : f input with
    | ok r w =>
      dsimp only
      cases hv : w.verify <;> simp [hv]
    | errE e => simp
    | errF e => simp
    | noFuel => simp
    | panicked => exact absurd hfi hnp
  · intro rest v h
    unfold verifyFullC at h
    cases hfi : f input <;> rw [hfi] at h
    case ok r w =>
      dsimp only at h
      cases hv : w.verify <;> rw [hv] at h <;> cases h
      exact hok _ _ hfi
    all_goals cases h

theorem take1_wf {input rest : List Token} {v : List Token}
    (hwf : streamWF input = true)
    (he : ∀ (r : List Token) (s : Span), eofP input = .ok r s → False)
    (ht : take1 input = .ok rest v) : streamWF rest = true := by
  cases input with
  | nil => cases ht
  | cons t tl =>
    unfold take1 at ht
    cases ht
    refine streamWF_tail ?_ hwf
    by_contra hc
    rw [Bool.not_eq_false] at hc
    cases t <;> simp [isEofTok] at hc
    exact he _ _ (by
      unfold eofP
      rw [skipComments_other _ _ (by simp [isCommentTok])])

theorem eofP_no_ok_of_errE {input : List Token} {e : Errors}
    (h : eofP input = .errE e) : ∀ r s, eofP input ≠ .ok r s := by
  intro r s hok
  rw [h] at hok
  cases hok

theorem eofP_ne_errF (input : List Token) (e : Errors) :
    eofP input ≠ .errF e := by
  unfold eofP
  cases skipComments input with
  | nil => simp
  | cons t rest => cases t <;> simp

theorem eofP_ne_noFuel (input : List Token) : eofP input ≠ .noFuel := by
  unfold eofP
  cases skipComments input with
  | nil => simp
  | cons t rest => cases t <;> simp

theorem manyTillAux_np (f : Parser (Partial α)) (g : Parser β)
    (hf : NPanic f) (hg : NPanic g) :
    ∀ fuel partials errs,
      NPanic (fun input => manyTillAux f g fuel partials errs input) := by
  intro fuel
  induction fuel with
  | zero =>
    intro partials errs input hwf
    exact ⟨by simp [manyTillAux], fun r v h => by cases h⟩
  | succ fuel ih =>
    intro partials errs input hwf
    obtain ⟨hgnp, _⟩ := hg input hwf
    obtain ⟨hfnp, hfok⟩ := hf input hwf
    obtain ⟨henp, _⟩ := eofP_np input hwf
    constructor
    · show ¬ manyTillAux f g (fuel + 1) partials errs input = .panicked
      unfold manyTillAux
      intro hx
      repeat' split at hx
      all_goals first
        | exact hgnp (by assumption)
        | exact hfnp (by assumption)
        | exact henp (by assumption)
        | exact ((ih _ _) _ (hfok _ _ (by assumption))).1 (by assumption)
        | exact ((ih _ _) _
            (take1_wf hwf (by assumption) (by assumption))).1 (by assumption)
        | exact ((ih _ _) input hwf).1 (by assumption)
        | cases hx
    · intro rest v h
      show streamWF rest = true
      unfold manyTillAux at h
      repeat' split at h
      all_goals first
        | (cases h; exact hwf)
        | exact ((ih _ _) _ (hfok _ _ (by assumption))).2 _ _ h
        | exact ((ih _ _) _
            (take1_wf hwf (by assumption) (by assumption))).2 _ _ h
        | exact ((ih _ _) input hwf).2 _ _ h
        | cases h

theorem manyTillAux_vs (f : Parser (Partial α)) (g : Parser β) :
    ∀ fuel partials errs input rest v,
      manyTillAux f g fuel partials errs input = .ok rest v →
        v.value.isSome = true := by
  intro fuel
  induction fuel with
  | zero => intro partials errs input rest v h; cases h
  | succ fuel ih =>
    intro partials errs input rest v h
    unfold manyTillAux at h
    repeat' split at h
    all_goals first
      | (cases h; simp [collect_eq, Partial.extendErrors])
      | exact ih _ _ _ _ _ h
      | cases h

theorem sepListAux_np (sep : Parser γ) (f : Parser (Partial α)) (term : Parser δ)
    (hsep : NPanic sep) (hf : NPanic f) (hterm : NPanic term) :
    ∀ fuel partials errs,
      NPanic (fun input => sepListAux sep f term fuel partials errs input) := by
  intro fuel
  induction fuel with
  | zero =>
    intro partials errs input hwf
    exact ⟨by simp [sepListAux], fun r v h => by cases h⟩
  | succ fuel ih =>
    intro partials errs input hwf
    obtain ⟨htnp, _⟩ := hterm input hwf
    obtain ⟨hpnp, hpok⟩ := pPreceded_np sep f hsep hf input hwf
    obtain ⟨henp, _⟩ := eofP_np input hwf
    constructor
    · show ¬ sepListAux sep f term (fuel + 1) partials errs input = .panicked
      unfold sepListAux
      intro hx
      repeat' split at hx
      all_goals first
        | exact htnp (by assumption)
        | exact hpnp (by assumption)
        | exact henp (by assumption)
        | exact ((ih _ _) _ (hpok _ _ (by assumption))).1 (by assumption)
        | exact ((ih _ _) _
            (take1_wf hwf (by assumption) (by assumption))).1 (by assumption)
        | exact ((ih _ _) input hwf).1 (by assumption)
        | cases hx
    · intro rest v h
      show streamWF rest = true
      unfold sepListAux at h
      repeat' split at h
      all_goals first
        | (cases h; exact hwf)
        | exact ((ih _ _) _ (hpok _ _ (by assumption))).2 _ _ h
        | exact ((ih _ _) _
            (take1_wf hwf (by assumption) (by assumption))).2 _ _ h
        | exact ((ih _ _) input hwf).2 _ _ h
        | cases h

theorem sepListAux_vs (sep : Parser γ) (f : Parser (Partial α)) (term : Parser δ) :
    ∀ fuel partials errs input rest v,
      sepListAux sep f term fuel partials errs input = .ok rest v →
        v.value.isSome = true := by
  intro fuel
  induction fuel with
  | zero => intro partials errs input rest v h; cases h
  | succ fuel ih =>
    intro partials errs input rest v h
    unfold sepListAux at h
    repeat' split at h
    all_goals first
      | (cases h; simp [collect_eq, Partial.extendErrors])
      | exact ih _ _ _ _ _ h
      | cases h

theorem manyTillPartialC_np (f : Parser (Partial α)) (g : Parser β)
    (fuel : Nat) (hf : NPanic f) (hg : NPanic g) :
    NPanic (manyTillPartialC f g fuel) := by
  intro input hwf
  exact manyTillAux_np f g hf hg fuel [] [] input hwf

theorem manyTillPartialC_vs (f : Parser (Partial α)) (g : Parser β)
    (fuel : Nat) : ValS (manyTillPartialC f g fuel) := by
  intro input rest v h
  exact manyTillAux_vs f g fuel [] [] input rest v h

theorem separatedListPartialC_np (sep : Parser γ) (term : Parser δ)
    (f : Parser (Partial α)) (fuel : Nat)
    (hsep : NPanic sep) (hterm : NPanic term) (hf : NPanic f) :
    NPanic (separatedListPartialC sep term f fuel) := by
  intro input hwf
  obtain ⟨hfnp, hfok⟩ := hf input hwf
  constructor
  · unfold separatedListPartialC
    intro hx
    split at hx
    all_goals first
      | exact hfnp (by assumption)
      | exact (sepListAux_np sep f term hsep hf hterm fuel _ _ _
          (hfok _ _ (by assumption))).1 hx
      | cases hx
  · intro rest v h
    unfold separatedListPartialC at h
    split at h
    all_goals first
      | (cases h; exact hwf)
      | exact (sepListAux_np sep f term hsep hf hterm fuel _ _ _
          (hfok _ _ (by assumption))).2 _ _ h
      | cases h

theorem separatedListPartialC_vs (sep : Parser γ) (term : Parser δ)
    (f : Parser (Partial α)) (fuel : Nat) :
    ValS (separatedListPartialC sep term f fuel) := by
  intro input rest v h
  unfold separatedListPartialC at h
  split at h
  all_goals first
    | (cases h; simp [collect_eq])
    | exact sepListAux_vs sep f term fuel _ _ _ _ _ h
    | cases h

theorem tokenP_vs (m : Token → Option (Partial α))
    (hm : ∀ t p, m t = some p → p.value.isSome = true) : ValS (tokenP m) := by
  intro input rest v h
  unfold tokenP at h
  cases hs : skipComments input with
  | nil => rw [hs] at h; cases h
  | cons t rest' =>
    rw [hs] at h
    dsimp only at h
    cases hmt : m t <;> rw [hmt] at h <;> cases h
    exact hm _ _ hmt

theorem pMap_vs_new (p : Parser γ) (f : γ → α) :
    ValS (pMap p (fun x => Partial.new (some (f x)))) := by
  intro input rest v h
  unfold pMap at h
  cases hpi : p input <;> rw [hpi] at h <;> cases h
  rfl

theorem pBind_vsP (p : Parser (Partial γ)) (f : Partial γ → Parser (Partial α))
    (hp : ValS p) (hf : ∀ a, a.value.isSome = true → ValS (f a)) :
    ValS (pBind p f) := by
  intro input rest v h
  unfold pBind at h
  cases hpi : p input <;> rw [hpi] at h
  case ok r w => exact hf w (hp _ _ _ hpi) _ _ _ h
  all_goals cases h

theorem vs_flatMap_map (p : Parser (Partial γ)) (inner : Partial δ)
    (g : δ → γ → α) (hp : ValS p) (hinner : inner.value.isSome = true) :
    ValS (pMap p (fun bodyPart => inner.flatMap (fun x => bodyPart.map (g x)))) := by
  intro input rest v h
  unfold pMap at h
  cases hpi : p input <;> rw [hpi] at h
  case ok r w =>
    cases h
    have hb := hp _ _ _ hpi
    cases hx : inner.value <;> cases hy : w.value <;>
      simp_all [Partial.flatMap, Partial.map]
  all_goals cases h

theorem pPair_ok_inv {p : Parser α} {q : Parser β} {input rest : List Token}
    {x : α × β} (h : pPair p q input = .ok rest x) :
    ∃ mid, p input = .ok mid x.1 ∧ q mid = .ok rest x.2 := by
  unfold pPair at h
  cases hpi : p input <;> rw [hpi] at h
  case ok m w =>
    dsimp only at h
    cases hqi : q m <;> rw [hqi] at h <;> cases h
    exact ⟨m, by simp [hpi], by simp [hqi]⟩
  all_goals cases h

theorem pOpt_ok_inv {p : Parser α} {input rest : List Token} {v : Option α}
    (h : pOpt p input = .ok rest v) :
    (v = none ∧ rest = input) ∨ (∃ w, v = some w ∧ p input = .ok rest w) := by
  unfold pOpt at h
  cases hpi : p input <;> rw [hpi] at h <;> cases h
  · exact .inr ⟨_, rfl, by simp [hpi]⟩
  · exact .inl ⟨rfl, rfl⟩

theorem many0Aux_all (p : Parser α) (P : α → Prop)
    (hp : ∀ input rest v, p input = .ok rest v → P v) :
    ∀ fuel input rest vs, many0Aux p fuel input = .ok rest vs →
      ∀ v ∈ vs, P v := by
  intro fuel
  induction fuel with
  | zero => intro input rest vs h; cases h
  | succ fuel ih =>
    intro input rest vs h
    unfold many0Aux at h
    cases hpi : p input <;> rw [hpi] at h
    case errE e => cases h; intro v hv; cases hv
    case errF e => cases h
    case noFuel => cases h
    case panicked => cases h
    case ok r w =>
      dsimp only at h
      by_cases hlen : r.length = input.length
      · rw [if_pos hlen] at h; cases h
      · rw [if_neg hlen] at h
        cases hrec : many0Aux p fuel r <;> rw [hrec] at h <;> cases h
        intro v hv
        rcases List.mem_cons.mp hv with hv | hv
        · subst hv; exact hp _ _ _ hpi
        · exact ih _ _ _ hrec _ hv

theorem pMany0_all (p : Parser α) (P : α → Prop)
    (hp : ∀ input rest v, p input = .ok rest v → P v)
    {input rest : List Token} {vs : List α}
    (h : pMany0 p input = .ok rest vs) : ∀ v ∈ vs, P v :=
  many0Aux_all p P hp _ input rest vs h

theorem pPreceded_ok_inv {p : Parser α} {q : Parser β} {input rest : List Token}
    {v : β} (h : pPreceded p q input = .ok rest v) :
    ∃ mid w, p input = .ok mid w ∧ q mid = .ok rest v := by
  unfold pPreceded at h
  cases hpi : p input <;> rw [hpi] at h
  case ok m w => exact ⟨m, w, rfl, h⟩
  all_goals cases h

theorem fold_step_isSome (lhs rhs : Partial Expr) (g : Expr → Expr → Expr)
    (h1 : lhs.value.isSome = true) (h2 : rhs.value.isSome = true) :
    (lhs.flatMap (fun l => rhs.map (g l))).value.isSome = true := by
  cases hx : lhs.value <;> cases hy : rhs.value <;>
    simp_all [Partial.flatMap, Partial.map]

theorem foldBinL_isSome (op : BinaryOp) (first : Partial Expr)
    (rest : List (Partial Expr)) (h1 : first.value.isSome = true)
    (h2 : ∀ r ∈ rest, r.value.isSome = true) :
    (foldBinL op first rest).value.isSome = true := by
  induction rest generalizing first with
  | nil => exact h1
  | cons r rs ih =>
    unfold foldBinL
    simp only [List.foldl_cons]
    refine ih _ ?_ (fun x hx => h2 x (List.mem_cons_of_mem _ hx))
    exact fold_step_isSome first r _ h1 (h2 r (List.mem_cons_self _ _))

theorem foldBinOpsL_isSome (first : Partial Expr)
    (rest : List (BinaryOp × Partial Expr)) (h1 : first.value.isSome = true)
    (h2 : ∀ r ∈ rest, r.2.value.isSome = true) :
    (foldBinOpsL first rest).value.isSome = true := by
  induction rest generalizing first with
  | nil => exact h1
  | cons r rs ih =>
    unfold foldBinOpsL
    simp only [List.foldl_cons]
    refine ih _ ?_ (fun x hx => h2 x (List.mem_cons_of_mem _ hx))
    exact fold_step_isSome first r.2 _ h1 (h2 r (List.mem_cons_self _ _))

theorem foldFnApp_isSome (first : Partial Expr) (rest : List (Partial Expr))
    (h1 : first.value.isSome = true)
    (h2 : ∀ r ∈ rest, r.value.isSome = true) :
    (foldFnApp first rest).value.isSome = true := by
  induction rest generalizing first with
  | nil => exact h1
  | cons r rs ih =>
    unfold foldFnApp
    simp only [List.foldl_cons]
    refine ih _ ?_ (fun x hx => h2 x (List.mem_cons_of_mem _ hx))
    exact fold_step_isSome first r _ h1 (h2 r (List.mem_cons_self _ _))

theorem foldBinOpt_isSome (lhs : Partial Expr)
    (o : Option (BinaryOp × Partial Expr)) (h1 : lhs.value.isSome = true)
    (h2 : ∀ x, o = some x → x.2.value.isSome = true) :
    (foldBinOpt lhs o).value.isSome = true := by
  cases o with
  | none => exact h1
  | some x =>
    unfold foldBinOpt
    exact fold_step_isSome lhs x.2 _ h1 (h2 x rfl)

theorem revChainFold_isSome (op : BinaryOp) (es : List Expr) (h : es ≠ []) :
    (revChainFold op es).isSome = true := by
  unfold revChainFold
  cases hl : es.getLast? with
  | none => exact absurd (List.getLast?_eq_none_iff.mp hl) h
  | some last => simp

theorem np_noFuel : NPanic (fun _ : List Token => (.noFuel : PRes α)) := by
  intro input _
  exact ⟨by simp, fun rest v h => by cases h⟩

theorem vs_noFuel : ValS (fun _ : List Token => (.noFuel : PRes (Partial α))) := by
  intro input rest v h
  cases h

theorem partial_map_isSome (p : Partial γ) (f : γ → δ)
    (h : p.value.isSome = true) : (p.map f).value.isSome = true := by
  cases hv : p.value <;> simp_all [Partial.map]

theorem partial_flatMap_isSome (p : Partial γ) (f : γ → Partial δ)
    (hp : p.value.isSome = true) (hf : ∀ a, (f a).value.isSome = true) :
    (p.flatMap f).value.isSome = true := by
  cases hv : p.value with
  | none => rw [hv] at hp; cases hp
  | some a =>
    have := hf a
    simp_all [Partial.flatMap]

theorem pBind_vs_post (p : Parser γ) (f : γ → Parser (Partial α)) (Q : γ → Prop)
    (hp : ∀ input rest v, p input = .ok rest v → Q v)
    (hf : ∀ a, Q a → ValS (f a)) : ValS (pBind p f) := by
  intro input rest v h
  unfold pBind at h
  cases hpi : p input <;> rw [hpi] at h
  case ok r w => exact hf w (hp _ _ _ hpi) _ _ _ h
  all_goals cases h

theorem pMap_const_map_vs (p : Parser γ) (a : Partial δ) (g : δ → α)
    (ha : a.value.isSome = true) : ValS (pMap p (fun _ => a.map g)) := by
  intro input rest v h
  unfold pMap at h
  cases hpi : p input <;> rw [hpi] at h <;> cases h
  exact partial_map_isSome _ _ ha

theorem chainL_vs (operand : Parser (Partial Expr)) (opP : Parser Span)
    (op : BinaryOp) (hv : ValS operand) :
    ValS (pMap (pPair operand (pMany0 (pPreceded opP operand)))
      (fun x => foldBinL op x.1 x.2)) := by
  intro input rest v h
  unfold pMap at h
  cases hpi : pPair operand (pMany0 (pPreceded opP operand)) input <;>
    rw [hpi] at h <;> cases h
  obtain ⟨mid, h1, h2⟩ := pPair_ok_inv hpi
  refine foldBinL_isSome _ _ _ (hv _ _ _ h1) ?_
  intro r hr
  refine pMany0_all _ (fun y => y.value.isSome = true) ?_ h2 r hr
  intro i rr vv hok
  obtain ⟨m, w, _, hq⟩ := pPreceded_ok_inv hok
  exact hv _ _ _ hq

theorem chainOps_vs (operand : Parser (Partial Expr)) (opP : Parser BinaryOp)
    (hv : ValS operand) :
    ValS (pMap (pPair operand (pMany0 (pPair opP operand)))
      (fun x => foldBinOpsL x.1 x.2)) := by
  intro input rest v h
  unfold pMap at h
  cases hpi : pPair operand (pMany0 (pPair opP operand)) input <;>
    rw [hpi] at h <;> cases h
  obtain ⟨mid, h1, h2⟩ := pPair_ok_inv hpi
  refine foldBinOpsL_isSome _ _ (hv _ _ _ h1) ?_
  intro r hr
  refine pMany0_all _ (fun y => y.2.value.isSome = true) ?_ h2 r hr
  intro i rr vv hok
  obtain ⟨m, ha, hb⟩ := pPair_ok_inv hok
  exact hv _ _ _ hb

theorem chainOpt_vs (operand : Parser (Partial Expr)) (opP : Parser BinaryOp)
    (hv : ValS operand) :
    ValS (pMap (pPair operand (pOpt (pPair opP operand)))
      (fun x => foldBinOpt x.1 x.2)) := by
  intro input rest v h
  unfold pMap at h
  cases hpi : pPair operand (pOpt (pPair opP operand)) input <;>
    rw [hpi] at h <;> cases h
  obtain ⟨mid, h1, h2⟩ := pPair_ok_inv hpi
  refine foldBinOpt_isSome _ _ (hv _ _ _ h1) ?_
  intro y hy
  rcases pOpt_ok_inv h2 with ⟨hnone, _⟩ | ⟨w, hsome, hww⟩
  · rw [hnone] at hy; cases hy
  · rw [hsome] at hy
    cases hy
    obtain ⟨m, ha, hb⟩ := pPair_ok_inv hww
    exact hv _ _ _ hb

theorem fnApp_chain_vs (operand : Parser (Partial Expr)) (hv : ValS operand) :
    ValS (pMap (pPair operand (pMany0 operand)) (fun x => foldFnApp x.1 x.2)) := by
  intro input rest v h
  unfold pMap at h
  cases hpi : pPair operand (pMany0 operand) input <;> rw [hpi] at h <;> cases h
  obtain ⟨mid, h1, h2⟩ := pPair_ok_inv hpi
  refine foldFnApp_isSome _ _ (hv _ _ _ h1) ?_
  intro r hr
  exact pMany0_all _ (fun y => y.value.isSome = true)
    (fun i rr vv hok => hv _ _ _ hok) h2 r hr

theorem atomicLiteralP_vs : ValS atomicLiteralP := by
  refine tokenP_vs _ ?_
  intro t p h
  cases t <;> cases h <;> rfl

theorem atomicIdentP_vs : ValS atomicIdentP := pMap_vs_new _ _

theorem bindInheritP_np : NPanic bindInheritP := by
  intro input hwf
  exact pBind_np _ _ (pOpt_np _ commentP_np)
    (fun _ => pBind_np _ _ (tokenP_np _ (fun _ => rfl))
      (fun _ => pBind_np _ _ (pMany1_np _ (tokenP_np _ (fun _ => rfl)))
        (fun names => pMap_np _ _ (pCut_np _ (tokenP_np _ (fun _ => rfl))))))
    input hwf

theorem bindInheritP_vs : ValS bindInheritP := by
  intro input rest v h
  exact pBind_vs _ _
    (fun _ => pBind_vs _ _
      (fun _ => pBind_vs _ _ (fun names => pMap_vs_new _ _)))
    input rest v h

theorem fnDeclSimpleP_np_succ (fuel : Nat) (he : NPanic (exprP fuel)) :
    NPanic (fnDeclSimpleP (fuel + 1)) :=
  pBind_np _ _ (tokenP_np _ (fun _ => rfl)) (fun _ =>
    pBind_np _ _ (tokenP_np _ (fun _ => rfl)) (fun _ => pMap_np _ _ he))

theorem fnDeclSimpleP_vs_succ (fuel : Nat) (hv : ValS (exprP fuel)) :
    ValS (fnDeclSimpleP (fuel + 1)) :=
  pBind_vs _ _ (fun _ => pBind_vs _ _ (fun _ => pMap_vs _ _ hv))

theorem fnDeclFormalsP_np_succ (fuel : Nat)
    (hinner : NPanic (formalsInnerP fuel)) (he : NPanic (exprP fuel)) :
    NPanic (fnDeclFormalsP (fuel + 1)) := by
  unfold fnDeclFormalsP
  exact mapPartialSpanned_np _ _
    (pBind_np _ _ (pOpt_np _ (pTerminated_np _ _ (tokenP_np _ (fun _ => rfl))
        (tokenP_np _ (fun _ => rfl))))
      (fun prefixBinder =>
        pBind_np _ _ (tokenP_np _ (fun _ => rfl)) (fun _ =>
          pBind_np _ _ hinner (fun inner =>
            pBind_np _ _ (tokenP_np _ (fun _ => rfl)) (fun _ =>
              pBind_np _ _
                (by
                  cases prefixBinder with
                  | some a => exact np_pure _
                  | none =>
                    exact pOpt_np _ (pPreceded_np _ _ (tokenP_np _ (fun _ => rfl))
                      (tokenP_np _ (fun _ => rfl))))
                (fun suffixBinder =>
                  pBind_np _ _ (tokenP_np _ (fun _ => rfl)) (fun _ =>
                    pMap_np _ _ he)))))))

theorem fnDeclFormalsP_vs_succ (fuel : Nat)
    (hinner : ValS (formalsInnerP fuel)) (hv : ValS (exprP fuel)) :
    ValS (fnDeclFormalsP (fuel + 1)) := by
  unfold fnDeclFormalsP
  exact mapPartialSpanned_vs _ _
    (pBind_vs _ _ (fun prefixBinder =>
      pBind_vs _ _ (fun _ =>
        pBind_vsP _ _ hinner (fun inner hin =>
          pBind_vs _ _ (fun _ =>
            pBind_vs _ _ (fun suffixBinder =>
              pBind_vs _ _ (fun _ =>
                vs_flatMap_map _ _ _ hv hin)))))))

theorem fnDeclP_np_succ (fuel : Nat) (hs : NPanic (fnDeclSimpleP fuel))
    (hff : NPanic (fnDeclFormalsP fuel)) : NPanic (fnDeclP (fuel + 1)) := by
  intro input hwf
  have hsk := streamWF_skip hwf
  obtain ⟨hsnp, hsok⟩ := hs input hwf
  constructor
  · intro hx
    unfold fnDeclP pAlt at hx
    cases hsi : fnDeclSimpleP fuel input with
    | ok r w => rw [hsi] at hx; cases hx
    | errE e =>
      rw [hsi] at hx
      dsimp only at hx
      by_cases hfa : formalsAhead input = true
      · rw [if_pos hfa] at hx
        exact (hff input hwf).1 hx
      · rw [if_neg hfa] at hx
        cases hcs : skipComments input with
        | nil => rw [hcs] at hsk; simp [streamWF, shapeWF] at hsk
        | cons t r => rw [hcs] at hx; cases hx
    | errF e => rw [hsi] at hx; cases hx
    | noFuel => rw [hsi] at hx; cases hx
    | panicked => exact hsnp hsi
  · intro rest v h
    unfold fnDeclP pAlt at h
    cases hsi : fnDeclSimpleP fuel input with
    | ok r w => rw [hsi] at h; cases h; exact hsok _ _ hsi
    | errE e =>
      rw [hsi] at h
      dsimp only at h
      by_cases hfa : formalsAhead input = true
      · rw [if_pos hfa] at h
        exact (hff input hwf).2 _ _ h
      · rw [if_neg hfa] at h
        cases hcs : skipComments input with
        | nil => rw [hcs] at h; cases h
        | cons t r => rw [hcs] at h; cases h
    | errF e => rw [hsi] at h; cases h
    | noFuel => rw [hsi] at h; cases h
    | panicked => rw [hsi] at h; cases h

theorem fnDeclP_vs_succ (fuel : Nat) (hs : ValS (fnDeclSimpleP fuel))
    (hff : ValS (fnDeclFormalsP fuel)) : ValS (fnDeclP (fuel + 1)) := by
  intro input rest v h
  unfold fnDeclP pAlt at h
  cases hsi : fnDeclSimpleP fuel input with
  | ok r w => rw [hsi] at h; cases h; exact hs _ _ _ hsi
  | errE e =>
    rw [hsi] at h
    dsimp only at h
    by_cases hfa : formalsAhead input = true
    · rw [if_pos hfa] at h
      exact hff _ _ _ h
    · rw [if_neg hfa] at h
      cases hcs : skipComments input with
      | nil => rw [hcs] at h; cases h
      | cons t r => rw [hcs] at h; cases h
  | errF e => rw [hsi] at h; cases h
  | noFuel => rw [hsi] at h; cases h
  | panicked => rw [hsi] at h; cases h

theorem formalP_np_succ (fuel : Nat) (he : NPanic (exprP fuel)) :
    NPanic (formalP (fuel + 1)) :=
  pBind_np _ _ (tokenP_np _ (fun _ => rfl))
    (fun id => pBind_np _ _
      (pOpt_np _ (pPreceded_np _ _ (tokenP_np _ (fun _ => rfl)) he))
      (fun dflt => by
        cases dflt with
        | none => exact np_pure _
        | some dp => exact np_pure _))

theorem formalP_vs_succ (fuel : Nat) (hv : ValS (exprP fuel)) :
    ValS (formalP (fuel + 1)) :=
  pBind_vs _ _ (fun id =>
    pBind_vs_post (pOpt (pPreceded opQuestionP (exprP fuel))) _
      (fun dflt => ∀ dp, dflt = some dp → dp.value.isSome = true)
      (by
        intro input rest w hok dp hdp
        subst hdp
        rcases pOpt_ok_inv hok with ⟨hne, _⟩ | ⟨w2, hsome, hww⟩
        · cases hne
        · cases hsome
          obtain ⟨m, w3, _, hq⟩ := pPreceded_ok_inv hww
          exact hv _ _ _ hq)
      (by
        intro dflt hQ input rest w h
        cases dflt with
        | none => cases h; rfl
        | some dp =>
          cases h
          exact partial_map_isSome _ _ (hQ dp rfl)))

theorem formalsTailP_np_succ (fuel : Nat)
    (hformal : NPanic (formalP fuel))
    (htail : ∀ acc, NPanic (formalsTailP fuel acc)) :
    ∀ acc, NPanic (formalsTailP (fuel + 1) acc) := by
  intro acc input hwf
  have hcnp : NPanic commaP := tokenP_np _ (fun _ => rfl)
  have henp : NPanic ellipsisP := tokenP_np _ (fun _ => rfl)
  obtain ⟨hc1, hc2⟩ := hcnp input hwf
  constructor
  · intro hx
    unfold formalsTailP at hx
    cases hci : commaP input with
    | ok i1 s1 =>
      rw [hci] at hx
      dsimp only at hx
      have hwf1 := hc2 _ _ hci
      obtain ⟨he1, he2⟩ := henp i1 hwf1
      obtain ⟨hf1, hf2⟩ := hformal i1 hwf1
      cases hei : ellipsisP i1 with
      | ok i2 s2 => rw [hei] at hx; cases hx
      | errE e =>
        rw [hei] at hx
        dsimp only at hx
        cases hfi : formalP fuel i1 with
        | ok i2 fp => rw [hfi] at hx; exact (htail _ _ (hf2 _ _ hfi)).1 hx
        | errE e2 => rw [hfi] at hx; cases hx
        | errF e2 => rw [hfi] at hx; cases hx
        | noFuel => rw [hfi] at hx; cases hx
        | panicked => exact hf1 hfi
      | errF e => rw [hei] at hx; cases hx
      | noFuel => rw [hei] at hx; cases hx
      | panicked => exact he1 hei
    | errE e => rw [hci] at hx; cases hx
    | errF e => rw [hci] at hx; cases hx
    | noFuel => rw [hci] at hx; cases hx
    | panicked => exact hc1 hci
  · intro rest v h
    unfold formalsTailP at h
    cases hci : commaP input with
    | ok i1 s1 =>
      rw [hci] at h
      dsimp only at h
      have hwf1 := hc2 _ _ hci
      obtain ⟨he1, he2⟩ := henp i1 hwf1
      obtain ⟨hf1, hf2⟩ := hformal i1 hwf1
      cases hei : ellipsisP i1 with
      | ok i2 s2 => rw [hei] at h; cases h; exact he2 _ _ hei
      | errE e =>
        rw [hei] at h
        dsimp only at h
        cases hfi : formalP fuel i1 with
        | ok i2 fp => rw [hfi] at h; exact (htail _ _ (hf2 _ _ hfi)).2 _ _ h
        | errE e2 => rw [hfi] at h; cases h
        | errF e2 => rw [hfi] at h; cases h
        | noFuel => rw [hfi] at h; cases h
        | panicked => rw [hfi] at h; cases h
      | errF e => rw [hei] at h; cases h
      | noFuel => rw [hei] at h; cases h
      | panicked => rw [hei] at h; cases h
    | errE e => rw [hci] at h; cases h; exact hwf
    | errF e => rw [hci] at h; cases h
    | noFuel => rw [hci] at h; cases h
    | panicked => rw [hci] at h; cases h

theorem formalsTailP_vs_succ (fuel : Nat)
    (htailV : ∀ acc, ValS (formalsTailP fuel acc)) :
    ∀ acc, ValS (formalsTailP (fuel + 1) acc) := by
  intro acc input rest v h
  unfold formalsTailP at h
  cases hci : commaP input with
  | ok i1 s1 =>
    rw [hci] at h
    dsimp only at h
    cases hei : ellipsisP i1 with
    | ok i2 s2 =>
      rw [hei] at h
      cases h
      simp [collect_eq, Partial.map]
    | errE e =>
      rw [hei] at h
      dsimp only at h
      cases hfi : formalP fuel i1 with
      | ok i2 fp => rw [hfi] at h; exact htailV _ _ _ _ h
      | errE e2 => rw [hfi] at h; cases h
      | errF e2 => rw [hfi] at h; cases h
      | noFuel => rw [hfi] at h; cases h
      | panicked => rw [hfi] at h; cases h
    | errF e => rw [hei] at h; cases h
    | noFuel => rw [hei] at h; cases h
    | panicked => rw [hei] at h; cases h
  | errE e =>
    rw [hci] at h
    cases h
    simp [collect_eq, Partial.map]
  | errF e => rw [hci] at h; cases h
  | noFuel => rw [hci] at h; cases h
  | panicked => rw [hci] at h; cases h

theorem formalsInnerP_np_succ (fuel : Nat)
    (hformal : NPanic (formalP fuel))
    (htail : ∀ acc, NPanic (formalsTailP fuel acc)) :
    NPanic (formalsInnerP (fuel + 1)) := by
  intro input hwf
  have henp : NPanic ellipsisP := tokenP_np _ (fun _ => rfl)
  obtain ⟨he1, he2⟩ := henp input hwf
  obtain ⟨hf1, hf2⟩ := hformal input hwf
  constructor
  · intro hx
    unfold formalsInnerP at hx
    cases hei : ellipsisP input with
    | ok i1 s => rw [hei] at hx; cases hx
    | errE e =>
      rw [hei] at hx
      dsimp only at hx
      cases hfi : formalP fuel input with
      | ok i1 fp => rw [hfi] at hx; exact (htail _ _ (hf2 _ _ hfi)).1 hx
      | errE e2 => rw [hfi] at hx; cases hx
      | errF e2 => rw [hfi] at hx; cases hx
      | noFuel => rw [hfi] at hx; cases hx
      | panicked => exact hf1 hfi
    | errF e => rw [hei] at hx; cases hx
    | noFuel => rw [hei] at hx; cases hx
    | panicked => exact he1 hei
  · intro rest v h
    unfold formalsInnerP at h
    cases hei : ellipsisP input with
    | ok i1 s => rw [hei] at h; cases h; exact he2 _ _ hei
    | errE e =>
      rw [hei] at h
      dsimp only at h
      cases hfi : formalP fuel input with
      | ok i1 fp => rw [hfi] at h; exact (htail _ _ (hf2 _ _ hfi)).2 _ _ h
      | errE e2 => rw [hfi] at h; cases h; exact hwf
      | errF e2 => rw [hfi] at h; cases h
      | noFuel => rw [hfi] at h; cases h
      | panicked => rw [hfi] at h; cases h
    | errF e => rw [hei] at h; cases h
    | noFuel => rw [hei] at h; cases h
    | panicked => rw [hei] at h; cases h

theorem streamWF_parts {ts : List Token} (h : streamWF ts = true) :
    shapeWF ts = true ∧ listTokensWF ts = true := by
  unfold streamWF at h
  rw [Bool.and_eq_true] at h
  exact h

theorem streamWF_of_parts {ts : List Token} (h1 : shapeWF ts = true)
    (h2 : listTokensWF ts = true) : streamWF ts = true := by
  unfold streamWF
  rw [Bool.and_eq_true]
  exact ⟨h1, h2⟩

theorem updateP_np_succ (fuel : Nat) (hnp : NPanic (sumP fuel))
    (hvs : ValS (sumP fuel)) : NPanic (updateP (fuel + 1)) := by
  intro input hwf
  obtain ⟨hp1, hp2⟩ := pPair_np (sumP fuel) (pMany0 (pPreceded opUpdateP (sumP fuel)))
    hnp (pMany0_np _ (pPreceded_np _ _ (tokenP_np _ (fun _ => rfl)) hnp)) input hwf
  constructor
  · intro hx
    unfold updateP at hx
    cases hpi : pPair (sumP fuel) (pMany0 (pPreceded opUpdateP (sumP fuel))) input with
    | ok r xv =>
      rw [hpi] at hx
      dsimp only at hx
      rw [collect_eq] at hx
      dsimp only at hx
      obtain ⟨mid, h1, h2⟩ := pPair_ok_inv hpi
      have h1v := hvs _ _ _ h1
      have hne : (xv.1 :: xv.2).filterMap Partial.value ≠ [] := by
        cases hvv : xv.1.value with
        | none => rw [hvv] at h1v; cases h1v
        | some a => simp [List.filterMap_cons, hvv]
      have hrs := revChainFold_isSome .update _ hne
      cases hrf : revChainFold .update ((xv.1 :: xv.2).filterMap Partial.value) with
      | some e => rw [hrf] at hx; cases hx
      | none => rw [hrf] at hrs; cases hrs
    | errE e => rw [hpi] at hx; cases hx
    | errF e => rw [hpi] at hx; cases hx
    | noFuel => rw [hpi] at hx; cases hx
    | panicked => exact hp1 hpi
  · intro rest v h
    unfold updateP at h
    cases hpi : pPair (sumP fuel) (pMany0 (pPreceded opUpdateP (sumP fuel))) input with
    | ok r xv =>
      rw [hpi] at h
      dsimp only at h
      rw [collect_eq] at h
      dsimp only at h
      cases hrf : revChainFold .update ((xv.1 :: xv.2).filterMap Partial.value) with
      | some e => rw [hrf] at h; cases h; exact hp2 _ _ hpi
      | none => rw [hrf] at h; cases h
    | errE e => rw [hpi] at h; cases h
    | errF e => rw [hpi] at h; cases h
    | noFuel => rw [hpi] at h; cases h
    | panicked => rw [hpi] at h; cases h

theorem updateP_vs_succ (fuel : Nat) : ValS (updateP (fuel + 1)) := by
  intro input rest v h
  unfold updateP at h
  cases hpi : pPair (sumP fuel) (pMany0 (pPreceded opUpdateP (sumP fuel))) input with
  | ok r xv =>
    rw [hpi] at h
    dsimp only at h
    rw [collect_eq] at h
    dsimp only at h
    cases hrf : revChainFold .update ((xv.1 :: xv.2).filterMap Partial.value) with
    | some e => rw [hrf] at h; cases h; rfl
    | none => rw [hrf] at h; cases h
  | errE e => rw [hpi] at h; cases h
  | errF e => rw [hpi] at h; cases h
  | noFuel => rw [hpi] at h; cases h
  | panicked => rw [hpi] at h; cases h

theorem concatP_np_succ (fuel : Nat) (hnp : NPanic (unaryP fuel))
    (hvs : ValS (unaryP fuel)) : NPanic (concatP (fuel + 1)) := by
  intro input hwf
  obtain ⟨hp1, hp2⟩ := pPair_np (unaryP fuel) (pMany0 (pPreceded opConcatP (unaryP fuel)))
    hnp (pMany0_np _ (pPreceded_np _ _ (tokenP_np _ (fun _ => rfl)) hnp)) input hwf
  constructor
  · intro hx
    unfold concatP at hx
    cases hpi : pPair (unaryP fuel) (pMany0 (pPreceded opConcatP (unaryP fuel))) input with
    | ok r xv =>
      rw [hpi] at hx
      dsimp only at hx
      rw [collect_eq] at hx
      dsimp only at hx
      obtain ⟨mid, h1, h2⟩ := pPair_ok_inv hpi
      have h1v := hvs _ _ _ h1
      have hne : (xv.1 :: xv.2).filterMap Partial.value ≠ [] := by
        cases hvv : xv.1.value with
        | none => rw [hvv] at h1v; cases h1v
        | some a => simp [List.filterMap_cons, hvv]
      have hrs := revChainFold_isSome .concat _ hne
      cases hrf : revChainFold .concat ((xv.1 :: xv.2).filterMap Partial.value) with
      | some e => rw [hrf] at hx; cases hx
      | none => rw [hrf] at hrs; cases hrs
    | errE e => rw [hpi] at hx; cases hx
    | errF e => rw [hpi] at hx; cases hx
    | noFuel => rw [hpi] at hx; cases hx
    | panicked => exact hp1 hpi
  · intro rest v h
    unfold concatP at h
    cases hpi : pPair (unaryP fuel) (pMany0 (pPreceded opConcatP (unaryP fuel))) input with
    | ok r xv =>
      rw [hpi] at h
      dsimp only at h
      rw [collect_eq] at h
      dsimp only at h
      cases hrf : revChainFold .concat ((xv.1 :: xv.2).filterMap Partial.value) with
      | some e => rw [hrf] at h; cases h; exact hp2 _ _ hpi
      | none => rw [hrf] at h; cases h
    | errE e => rw [hpi] at h; cases h
    | errF e => rw [hpi] at h; cases h
    | noFuel => rw [hpi] at h; cases h
    | panicked => rw [hpi] at h; cases h

theorem concatP_vs_succ (fuel : Nat) : ValS (concatP (fuel + 1)) := by
  intro input rest v h
  unfold concatP at h
  cases hpi : pPair (unaryP fuel) (pMany0 (pPreceded opConcatP (unaryP fuel))) input with
  | ok r xv =>
    rw [hpi] at h
    dsimp only at h
    rw [collect_eq] at h
    dsimp only at h
    cases hrf : revChainFold .concat ((xv.1 :: xv.2).filterMap Partial.value) with
    | some e => rw [hrf] at h; cases h; rfl
    | none => rw [hrf] at h; cases h
  | errE e => rw [hpi] at h; cases h
  | errF e => rw [hpi] at h; cases h
  | noFuel => rw [hpi] at h; cases h
  | panicked => rw [hpi] at h; cases h

theorem projectP_vs_succ (fuel : Nat) (hv : ValS (atomicP fuel)) :
    ValS (projectP (fuel + 1)) := by
  intro input rest v h
  unfold projectP pMap at h
  cases hpi : pPair (atomicP fuel)
      (pOpt (pPreceded dotP (verifyFullC (attrPathP fuel)))) input with
  | ok r xv =>
    rw [hpi] at h
    cases h
    dsimp only
    obtain ⟨mid, h1, h2⟩ := pPair_ok_inv hpi
    have h1v := hv _ _ _ h1
    rcases pOpt_ok_inv h2 with ⟨hnone, _⟩ | ⟨w, hsome, hww⟩
    · rw [hnone]
      exact h1v
    · rw [hsome]
      exact partial_map_isSome _ _ h1v
  | errE e => rw [hpi] at h; cases h
  | errF e => rw [hpi] at h; cases h
  | noFuel => rw [hpi] at h; cases h
  | panicked => rw [hpi] at h; cases h

theorem attrPathP_vs_succ (fuel : Nat) (hv : ValS (attrSegP fuel)) :
    ValS (attrPathP (fuel + 1)) := by
  intro input rest v h
  unfold attrPathP pMap at h
  cases hpi : pPair (attrSegP fuel) (pMany0 (pPreceded dotP (attrSegP fuel))) input with
  | ok r xv =>
    rw [hpi] at h
    cases h
    dsimp only
    obtain ⟨mid, h1, h2⟩ := pPair_ok_inv hpi
    refine partial_flatMap_isSome _ _ (hv _ _ _ h1) ?_
    intro a
    exact partial_map_isSome _ _ (by simp [collect_eq])
  | errE e => rw [hpi] at h; cases h
  | errF e => rw [hpi] at h; cases h
  | noFuel => rw [hpi] at h; cases h
  | panicked => rw [hpi] at h; cases h

theorem interpInner_np_succ (fuel : Nat) (he : NPanic (exprP fuel)) :
    ∀ toks s, streamWF toks = true → interpInner (fuel + 1) toks s ≠ .panicked := by
  intro toks s hwt hx
  unfold interpInner at hx
  cases hq : exprP fuel toks <;> rw [hq] at hx <;> try (cases hx)
  exact (he toks hwt).1 hq

theorem strFragsP_np_succ (fuel : Nat)
    (hsf : ∀ frags, fragsWF frags = true → strFragsP fuel frags ≠ .panicked)
    (hii : ∀ toks s, streamWF toks = true → interpInner fuel toks s ≠ .panicked) :
    ∀ frags, fragsWF frags = true → strFragsP (fuel + 1) frags ≠ .panicked := by
  intro frags hfw hx
  unfold strFragsP at hx
  cases frags with
  | nil => cases hx
  | cons f rest =>
    cases f with
    | literal text s =>
      dsimp only at hx
      have hfr : fragsWF rest = true := by simpa [fragsWF] using hfw
      cases hq : strFragsP fuel rest <;> rw [hq] at hx <;> try (cases hx)
      exact hsf _ hfr hq
    | interpolation toks s =>
      dsimp only at hx
      simp only [fragsWF, Bool.and_eq_true] at hfw
      obtain ⟨⟨hshape, hlist⟩, hrest⟩ := hfw
      have hwt : streamWF toks = true := streamWF_of_parts hshape hlist
      cases hq : interpInner fuel toks s with
      | ok l y =>
        rw [hq] at hx
        dsimp only at hx
        cases hq2 : strFragsP fuel rest <;> rw [hq2] at hx <;> try (cases hx)
        exact hsf _ hrest hq2
      | errE e => rw [hq] at hx; cases hx
      | errF e => rw [hq] at hx; cases hx
      | noFuel => rw [hq] at hx; cases hx
      | panicked => exact hii _ _ hwt hq

theorem stringP_np_succ (fuel : Nat)
    (hsf : ∀ frags, fragsWF frags = true → strFragsP fuel frags ≠ .panicked) :
    NPanic (stringP (fuel + 1)) := by
  intro input hwf
  have hsk := streamWF_skip hwf
  constructor
  · intro hx
    unfold stringP at hx
    cases hs : skipComments input with
    | nil => rw [hs] at hsk; simp [streamWF, shapeWF] at hsk
    | cons t r =>
      rw [hs] at hx
      rw [hs] at hsk
      cases t <;> try (cases hx)
      case string frags s =>
        dsimp only at hx
        have hfw : fragsWF frags = true := by
          have h1 := (listTokensWF_cons (streamWF_parts hsk).2).1
          simpa [tokenWF] using h1
        cases hq : strFragsP fuel frags <;> rw [hq] at hx <;> try (cases hx)
        exact hsf _ hfw hq
  · intro rest v h
    unfold stringP at h
    cases hs : skipComments input with
    | nil => rw [hs] at h; cases h
    | cons t r =>
      rw [hs] at h
      rw [hs] at hsk
      cases t <;> try (cases h)
      case string frags s =>
        dsimp only at h
        cases hq : strFragsP fuel frags <;> rw [hq] at h <;> cases h
        exact streamWF_tail (by simp [isEofTok]) hsk

theorem stringP_vs_succ (fuel : Nat) : ValS (stringP (fuel + 1)) := by
  intro input rest v h
  unfold stringP at h
  cases hs : skipComments input with
  | nil => rw [hs] at h; cases h
  | cons t r =>
    rw [hs] at h
    cases t <;> try (cases h)
    case string frags s =>
      dsimp only at h
      cases hq : strFragsP fuel frags <;> rw [hq] at h <;> cases h
      rfl

theorem interpolationAtomP_np_succ (fuel : Nat)
    (hii : ∀ toks s, streamWF toks = true → interpInner fuel toks s ≠ .panicked) :
    NPanic (interpolationAtomP (fuel + 1)) := by
  intro input hwf
  have hsk := streamWF_skip hwf
  constructor
  · intro hx
    unfold interpolationAtomP at hx
    cases hs : skipComments input with
    | nil => rw [hs] at hsk; simp [streamWF, shapeWF] at hsk
    | cons t r =>
      rw [hs] at hx
      rw [hs] at hsk
      cases t <;> try (cases hx)
      case interpolation toks s =>
        dsimp only at hx
        have hwt : streamWF toks = true := by
          have h1 := (listTokensWF_cons (streamWF_parts hsk).2).1
          simpa [tokenWF, streamWF] using h1
        cases hq : interpInner fuel toks s <;> rw [hq] at hx <;> try (cases hx)
        exact hii _ _ hwt hq
  · intro rest v h
    unfold interpolationAtomP at h
    cases hs : skipComments input with
    | nil => rw [hs] at h; cases h
    | cons t r =>
      rw [hs] at h
      rw [hs] at hsk
      cases t <;> try (cases h)
      case interpolation toks s =>
        dsimp only at h
        cases hq : interpInner fuel toks s <;> rw [hq] at h <;> cases h
        exact streamWF_tail (by simp [isEofTok]) hsk

theorem interpolationAtomP_vs_succ (fuel : Nat) :
    ValS (interpolationAtomP (fuel + 1)) := by
  intro input rest v h
  unfold interpolationAtomP at h
  cases hs : skipComments input with
  | nil => rw [hs] at h; cases h
  | cons t r =>
    rw [hs] at h
    cases t <;> try (cases h)
    case interpolation toks s =>
      dsimp only at h
      cases hq : interpInner fuel toks s <;> rw [hq] at h <;> cases h
      rfl

theorem attrSegP_np_succ (fuel : Nat)
    (hsf : ∀ frags, fragsWF frags = true → strFragsP fuel frags ≠ .panicked)
    (hii : ∀ toks s, streamWF toks = true → interpInner fuel toks s ≠ .panicked) :
    NPanic (attrSegP (fuel + 1)) := by
  intro input hwf
  have hsk := streamWF_skip hwf
  constructor
  · intro hx
    unfold attrSegP at hx
    cases hs : skipComments input with
    | nil => rw [hs] at hsk; simp [streamWF, shapeWF] at hsk
    | cons t r =>
      rw [hs] at hx
      rw [hs] at hsk
      cases t <;> try (cases hx)
      case string frags s =>
        dsimp only at hx
        have hfw : fragsWF frags = true := by
          have h1 := (listTokensWF_cons (streamWF_parts hsk).2).1
          simpa [tokenWF] using h1
        cases hq : strFragsP fuel frags <;> rw [hq] at hx <;> try (cases hx)
        exact hsf _ hfw hq
      case interpolation toks s =>
        dsimp only at hx
        have hwt : streamWF toks = true := by
          have h1 := (listTokensWF_cons (streamWF_parts hsk).2).1
          simpa [tokenWF, streamWF] using h1
        cases hq : interpInner fuel toks s <;> rw [hq] at hx <;> try (cases hx)
        exact hii _ _ hwt hq
  · intro rest v h
    unfold attrSegP at h
    cases hs : skipComments input with
    | nil => rw [hs] at h; cases h
    | cons t r =>
      rw [hs] at h
      rw [hs] at hsk
      cases t <;> try (cases h)
      all_goals try (exact streamWF_tail (by simp [isEofTok]) hsk)
      case string frags s =>
        dsimp only at h
        cases hq : strFragsP fuel frags <;> rw [hq] at h <;> cases h
        exact streamWF_tail (by simp [isEofTok]) hsk
      case interpolation toks s =>
        dsimp only at h
        cases hq : interpInner fuel toks s <;> rw [hq] at h <;> cases h
        exact streamWF_tail (by simp [isEofTok]) hsk

theorem attrSegP_vs_succ (fuel : Nat) : ValS (attrSegP (fuel + 1)) := by
  intro input rest v h
  unfold attrSegP at h
  cases hs : skipComments input with
  | nil => rw [hs] at h; cases h
  | cons t r =>
    rw [hs] at h
    cases t <;> try (cases h)
    all_goals try rfl
    case string frags s =>
      dsimp only at h
      cases hq : strFragsP fuel frags <;> rw [hq] at h <;> cases h
      rfl
    case interpolation toks s =>
      dsimp only at h
      cases hq : interpInner fuel toks s <;> rw [hq] at h <;> cases h
      rfl

theorem formalsInnerP_vs_succ (fuel : Nat)
    (htailV : ∀ acc, ValS (formalsTailP fuel acc)) :
    ValS (formalsInnerP (fuel + 1)) := by
  intro input rest v h
  unfold formalsInnerP at h
  cases hei : ellipsisP input with
  | ok i1 s => rw [hei] at h; cases h; rfl
  | errE e =>
    rw [hei] at h
    dsimp only at h
    cases hfi : formalP fuel input with
    | ok i1 fp => rw [hfi] at h; exact htailV _ _ _ _ h
    | errE e2 => rw [hfi] at h; cases h; rfl
    | errF e2 => rw [hfi] at h; cases h
    | noFuel => rw [hfi] at h; cases h
    | panicked => rw [hfi] at h; cases h
  | errF e => rw [hei] at h; cases h
  | noFuel => rw [hei] at h; cases h
  | panicked => rw [hei] at h; cases h

theorem grammarOK_zero : GrammarOK 0 := by
  constructor <;>
    first
      | exact np_noFuel
      | exact vs_noFuel
      | exact fun _ => np_noFuel
      | exact fun _ => vs_noFuel
      | (intro a b c h; cases h)
      | (intro a b h; cases h)

theorem grammarOK_succ (fuel : Nat) (ih : GrammarOK fuel) :
    GrammarOK (fuel + 1) where
  expr := pPreceded_np _ _ (pMany0_np _ commentP_np) ih.function
  exprV := pPreceded_vs _ _ ih.functionV
  function := pAlt_np _ _ ih.fnDecl (pAlt_np _ _ ih.withp
    (pAlt_np _ _ ih.assertp (pAlt_np _ _ ih.letIn ih.ifElse)))
  functionV := pAlt_vs _ _ ih.fnDeclV (pAlt_vs _ _ ih.withpV
    (pAlt_vs _ _ ih.assertpV (pAlt_vs _ _ ih.letInV ih.ifElseV)))
  fnDecl := fnDeclP_np_succ fuel ih.fnDeclSimple ih.fnDeclFormals
  fnDeclV := fnDeclP_vs_succ fuel ih.fnDeclSimpleV ih.fnDeclFormalsV
  fnDeclSimple := fnDeclSimpleP_np_succ fuel ih.expr
  fnDeclSimpleV := fnDeclSimpleP_vs_succ fuel ih.exprV
  fnDeclFormals := fnDeclFormalsP_np_succ fuel ih.formalsInner ih.expr
  fnDeclFormalsV := fnDeclFormalsP_vs_succ fuel ih.formalsInnerV ih.exprV
  formal := formalP_np_succ fuel ih.expr
  formalV := formalP_vs_succ fuel ih.exprV
  formalsTail := formalsTailP_np_succ fuel ih.formal ih.formalsTail
  formalsTailV := formalsTailP_vs_succ fuel ih.formalsTailV
  formalsInner := formalsInnerP_np_succ fuel ih.formal ih.formalsTail
  formalsInnerV := formalsInnerP_vs_succ fuel ih.formalsTailV
  withp := by
    unfold withP
    exact mapPartialSpanned_np _ _ (pPreceded_np _ _ (tokenP_np _ (fun _ => rfl))
        (pairPartialC_np _ _
          (expectTerminated_np _ _ ih.expr (tokenP_np _ (fun _ => rfl))) ih.expr))
  withpV := by
    unfold withP
    exact mapPartialSpanned_vs _ _ (pPreceded_vs _ _
        (pairPartialC_vs _ _ (expectTerminated_vs _ _ ih.exprV) ih.exprV))
  assertp := by
    unfold assertP
    exact mapPartialSpanned_np _ _ (pPreceded_np _ _ (tokenP_np _ (fun _ => rfl))
        (pairPartialC_np _ _
          (expectTerminated_np _ _ ih.expr (tokenP_np _ (fun _ => rfl))) ih.expr))
  assertpV := by
    unfold assertP
    exact mapPartialSpanned_vs _ _ (pPreceded_vs _ _
        (pairPartialC_vs _ _ (expectTerminated_vs _ _ ih.exprV) ih.exprV))
  letIn := by
    unfold letInP
    exact mapPartialSpanned_np _ _ (pPreceded_np _ _ (tokenP_np _ (fun _ => rfl))
        (pairPartialC_np _ _
          (manyTillPartialC_np _ _ fuel ih.bind (tokenP_np _ (fun _ => rfl)))
          (pPreceded_np _ _ (tokenP_np _ (fun _ => rfl)) ih.expr)))
  letInV := by
    unfold letInP
    exact mapPartialSpanned_vs _ _ (pPreceded_vs _ _
        (pairPartialC_vs _ _ (manyTillPartialC_vs _ _ _) (pPreceded_vs _ _ ih.exprV)))
  ifElse := pAlt_np _ _
    (mapPartialSpanned_np _ _ (pairPartialC_np _ _
      (pPreceded_np _ _ (tokenP_np _ (fun _ => rfl))
        (expectTerminated_np _ _
          (pAlt_np _ _ (errorExprIf_np _ _ (tokenP_np _ (fun _ => rfl))) ih.expr)
          (tokenP_np _ (fun _ => rfl))))
      (pairPartialC_np _ _
        (expectTerminated_np _ _
          (pAlt_np _ _ (errorExprIf_np _ _ (tokenP_np _ (fun _ => rfl))) ih.expr)
          (tokenP_np _ (fun _ => rfl)))
        (pAlt_np _ _ (errorExprIf_np _ _ eofP_np) ih.expr))))
    ih.imply
  ifElseV := pAlt_vs _ _
    (mapPartialSpanned_vs _ _ (pairPartialC_vs _ _
      (pPreceded_vs _ _
        (expectTerminated_vs _ _ (pAlt_vs _ _ (errorExprIf_vs _ _) ih.exprV)))
      (pairPartialC_vs _ _
        (expectTerminated_vs _ _ (pAlt_vs _ _ (errorExprIf_vs _ _) ih.exprV))
        (pAlt_vs _ _ (errorExprIf_vs _ _) ih.exprV))))
    ih.implyV
  imply := pMap_np _ _ (pPair_np _ _ ih.andp
    (pMany0_np _ (pPreceded_np _ _ (tokenP_np _ (fun _ => rfl)) ih.andp)))
  implyV := chainL_vs _ _ _ ih.andpV
  andp := pMap_np _ _ (pPair_np _ _ ih.orp
    (pMany0_np _ (pPreceded_np _ _ (tokenP_np _ (fun _ => rfl)) ih.orp)))
  andpV := chainL_vs _ _ _ ih.orpV
  orp := pMap_np _ _ (pPair_np _ _ ih.equality
    (pMany0_np _ (pPreceded_np _ _ (tokenP_np _ (fun _ => rfl)) ih.equality)))
  orpV := chainL_vs _ _ _ ih.equalityV
  equality := pMap_np _ _ (pPair_np _ _ ih.compare (pOpt_np _ (pPair_np _ _
    (pAlt_np _ _ (pMap_np _ _ (tokenP_np _ (fun _ => rfl)))
      (pMap_np _ _ (tokenP_np _ (fun _ => rfl)))) ih.compare)))
  equalityV := chainOpt_vs _ _ ih.compareV
  compare := pMap_np _ _ (pPair_np _ _ ih.update (pOpt_np _ (pPair_np _ _
    (pAlt_np _ _ (pMap_np _ _ (tokenP_np _ (fun _ => rfl)))
      (pAlt_np _ _ (pMap_np _ _ (tokenP_np _ (fun _ => rfl)))
        (pAlt_np _ _ (pMap_np _ _ (tokenP_np _ (fun _ => rfl)))
          (pMap_np _ _ (tokenP_np _ (fun _ => rfl)))))) ih.update)))
  compareV := chainOpt_vs _ _ ih.updateV
  update := updateP_np_succ fuel ih.sum ih.sumV
  updateV := updateP_vs_succ fuel
  sum := pMap_np _ _ (pPair_np _ _ ih.product (pMany0_np _ (pPair_np _ _
    (pAlt_np _ _ (pMap_np _ _ (tokenP_np _ (fun _ => rfl)))
      (pMap_np _ _ (tokenP_np _ (fun _ => rfl)))) ih.product)))
  sumV := chainOps_vs _ _ ih.productV
  product := pMap_np _ _ (pPair_np _ _ ih.concat (pMany0_np _ (pPair_np _ _
    (pAlt_np _ _ (pMap_np _ _ (tokenP_np _ (fun _ => rfl)))
      (pMap_np _ _ (tokenP_np _ (fun _ => rfl)))) ih.concat)))
  productV := chainOps_vs _ _ ih.concatV
  concat := concatP_np_succ fuel ih.unary ih.unaryV
  concatV := concatP_vs_succ fuel
  unary := pAlt_np _ _ (mapPartialSpanned_np _ _ (pairPartialC_np _ _
    (pMap_np _ _ (pOpt_np _
      (pAlt_np _ _ (pMap_np _ _ (tokenP_np _ (fun _ => rfl)))
        (pMap_np _ _ (tokenP_np _ (fun _ => rfl))))))
    ih.fnApp)) errorP_np
  unaryV := pAlt_vs _ _
    (mapPartialSpanned_vs _ _ (pairPartialC_vs _ _ (pMap_vs_new _ _) ih.fnAppV))
    errorP_vs
  fnApp := pMap_np _ _ (pPair_np _ _ ih.project (pMany0_np _ ih.project))
  fnAppV := fnApp_chain_vs _ ih.projectV
  project := pMap_np _ _ (pPair_np _ _ ih.atomic (pOpt_np _
    (pPreceded_np _ _ (tokenP_np _ (fun _ => rfl)) (verifyFullC_np _ ih.attrPath))))
  projectV := projectP_vs_succ fuel ih.atomicV
  atomic := pAlt_np _ _ (pMap_np _ _ (tokenP_np _ (fun _ => rfl)))
    (pAlt_np _ _ ih.paren (pAlt_np _ _ ih.set (pAlt_np _ _ ih.list
      (pAlt_np _ _ ih.string (pAlt_np _ _ ih.interpolationAtom
        (pAlt_np _ _ (tokenP_np _ (fun _ => rfl))
          (pAlt_np _ _ ih.recSet ih.letSet)))))))
  atomicV := pAlt_vs _ _ atomicIdentP_vs
    (pAlt_vs _ _ ih.parenV (pAlt_vs _ _ ih.setV (pAlt_vs _ _ ih.listV
      (pAlt_vs _ _ ih.stringV (pAlt_vs _ _ ih.interpolationAtomV
        (pAlt_vs _ _ atomicLiteralP_vs
          (pAlt_vs _ _ ih.recSetV ih.letSetV)))))))
  paren := by
    unfold parenP
    exact mapPartialSpanned_np _ _ (expectTerminated_np _ _
        (pPreceded_np _ _ (tokenP_np _ (fun _ => rfl)) ih.expr)
        (tokenP_np _ (fun _ => rfl)))
  parenV := by
    unfold parenP
    exact mapPartialSpanned_vs _ _
        (expectTerminated_vs _ _ (pPreceded_vs _ _ ih.exprV))
  set := by
    unfold setP
    exact mapPartialSpanned_np _ _ (expectTerminated_np _ _
        (pPreceded_np _ _ (tokenP_np _ (fun _ => rfl))
          (manyTillPartialC_np _ _ fuel ih.bind (tokenP_np _ (fun _ => rfl))))
        (tokenP_np _ (fun _ => rfl)))
  setV := by
    unfold setP
    exact mapPartialSpanned_vs _ _
        (expectTerminated_vs _ _ (pPreceded_vs _ _ (manyTillPartialC_vs _ _ _)))
  recSet := by
    unfold recSetP
    exact mapPartialSpanned_np _ _ (pPreceded_np _ _ (tokenP_np _ (fun _ => rfl))
        (expectTerminated_np _ _
          (pPreceded_np _ _ (tokenP_np _ (fun _ => rfl))
            (manyTillPartialC_np _ _ fuel ih.bind (tokenP_np _ (fun _ => rfl))))
          (tokenP_np _ (fun _ => rfl))))
  recSetV := by
    unfold recSetP
    exact mapPartialSpanned_vs _ _ (pPreceded_vs _ _
        (expectTerminated_vs _ _ (pPreceded_vs _ _ (manyTillPartialC_vs _ _ _))))
  letSet := by
    unfold letSetP
    exact mapPartialSpanned_np _ _ (pPreceded_np _ _ (tokenP_np _ (fun _ => rfl))
        (expectTerminated_np _ _
          (pPreceded_np _ _ (tokenP_np _ (fun _ => rfl))
            (manyTillPartialC_np _ _ fuel ih.bind (tokenP_np _ (fun _ => rfl))))
          (tokenP_np _ (fun _ => rfl))))
  letSetV := by
    unfold letSetP
    exact mapPartialSpanned_vs _ _ (pPreceded_vs _ _
        (expectTerminated_vs _ _ (pPreceded_vs _ _ (manyTillPartialC_vs _ _ _))))
  list := by
    unfold listP
    exact mapPartialSpanned_np _ _ (expectTerminated_np _ _
        (pPreceded_np _ _ (tokenP_np _ (fun _ => rfl))
          (manyTillPartialC_np _ _ fuel ih.project (tokenP_np _ (fun _ => rfl))))
        (tokenP_np _ (fun _ => rfl)))
  listV := by
    unfold listP
    exact mapPartialSpanned_vs _ _
        (expectTerminated_vs _ _ (pPreceded_vs _ _ (manyTillPartialC_vs _ _ _)))
  string := stringP_np_succ fuel ih.strFragsNP
  stringV := stringP_vs_succ fuel
  interpolationAtom := interpolationAtomP_np_succ fuel ih.interpInnerNP
  interpolationAtomV := interpolationAtomP_vs_succ fuel
  attrSeg := attrSegP_np_succ fuel ih.strFragsNP ih.interpInnerNP
  attrSegV := attrSegP_vs_succ fuel
  attrPath := pMap_np _ _ (pPair_np _ _ ih.attrSeg
    (pMany0_np _ (pPreceded_np _ _ (tokenP_np _ (fun _ => rfl)) ih.attrSeg)))
  attrPathV := attrPathP_vs_succ fuel ih.attrSegV
  bind := pAlt_np _ _ bindInheritP_np
    (pAlt_np _ _ ih.bindInheritExpr ih.bindSimple)
  bindV := pAlt_vs _ _ bindInheritP_vs
    (pAlt_vs _ _ ih.bindInheritExprV ih.bindSimpleV)
  bindInheritExpr := by
    unfold bindInheritExprP
    intro input hwf
    exact pBind_np _ _ (pOpt_np _ commentP_np)
      (fun _ => pBind_np _ _ (tokenP_np _ (fun _ => rfl))
        (fun _ => pBind_np _ _ (tokenP_np _ (fun _ => rfl))
          (fun _ => pBind_np _ _ (verifyFullC_np _ ih.expr)
            (fun e => pBind_np _ _ (pCut_np _ (tokenP_np _ (fun _ => rfl)))
              (fun _ => pBind_np _ _ (pMany1_np _ (tokenP_np _ (fun _ => rfl)))
                (fun names =>
                  pMap_np _ _ (pCut_np _ (tokenP_np _ (fun _ => rfl)))))))))
      input hwf
  bindInheritExprV := by
    unfold bindInheritExprP
    intro input rest v h
    exact pBind_vs _ _
      (fun _ => pBind_vs _ _
        (fun _ => pBind_vs _ _
          (fun _ => pBind_vs _ _
            (fun e => pBind_vs _ _
              (fun _ => pBind_vs _ _ (fun names => pMap_vs_new _ _))))))
      input rest v h
  bindSimple := by
    unfold bindSimpleP
    intro input hwf
    exact pBind_np _ _ (pOpt_np _ commentP_np)
      (fun comment => pBind_np _ _ ih.attrPath
        (fun attrPart => pBind_np _ _ (pCut_np _ (tokenP_np _ (fun _ => rfl)))
          (fun _ => pBind_np _ _ (verifyFullC_np _ ih.expr)
            (fun value => pMap_np _ _ (pCut_np _ (tokenP_np _ (fun _ => rfl)))))))
      input hwf
  bindSimpleV := by
    unfold bindSimpleP
    intro input rest v h
    exact pBind_vs _ _ (fun comment =>
      pBind_vsP _ _ ih.attrPathV (fun attrPart hap =>
        pBind_vs _ _ (fun _ =>
          pBind_vs _ _ (fun value => pMap_const_map_vs _ _ _ hap))))
      input rest v h
  interpInnerNP := interpInner_np_succ fuel ih.expr
  strFragsNP := strFragsP_np_succ fuel ih.strFragsNP ih.interpInnerNP

theorem grammarOK_all (fuel : Nat) : GrammarOK fuel := by
  induction fuel with
  | zero => exact grammarOK_zero
  | succ f ihf => exact grammarOK_succ f ihf

/-- C7: Parsing is total on the lexer contract.  On every well-formed
token stream (non-empty, `Eof`-terminated, recursively so inside
`Interpolation` and `String` tokens) the expression parser never
reaches a panicking branch — every `Tokens::current` call and vector
`pop().unwrap()` in `update`/`concat` is on a defined cursor — at any
recursion-depth budget, so `parse_expression` always returns a
`(Option<Expr>, Diagnostics)` pair. -/
theorem claim_C7 (fuel : Nat) (ts : List Token) (h : streamWF ts = true) :
    exprP fuel ts ≠ .panicked :=
  ((grammarOK_all fuel).expr ts h).1

theorem claim_C7_witness :
    streamWF [Token.identifier "a" ⟨0, 1⟩, Token.eof ⟨1, 1⟩] = true ∧
    exprP 9 [Token.identifier "a" ⟨0, 1⟩, Token.eof ⟨1, 1⟩] ≠ .panicked := by
  refine ⟨?_, claim_C7 9 _ ?_⟩ <;>
    simp [streamWF, shapeWF, listTokensWF, tokenWF, isEofTok]

end Nix
